import Mathlib

/-!
A shallow embedding of `print-wifi-nl.c`

The file embeds the decode/derive core of `src/print-wifi-nl.c`
(`nl80211_xbm_to_percent`, `find_ssid`, `gwi_sta_cb`, `gwi_scan_cb`,
`get_wireless_info`) as executable Lean definitions and proves properties of
them.

Conventions of the embedding.

* A byte buffer is a `List Nat` whose elements are byte values (`< 256`).
* C integers are `Nat`/`Int` with the wrap written out (`to_int32`).
* `float` is IEEE-754 binary32 with round-to-nearest-even; every value is kept
  as an exact fraction (`Frac`) and every operation rounds its exact result
  (`f32_round`).  All values that occur lie between 2^-7 and 2^7, far from
  overflow and underflow, so rounding to 24 significant bits is all that
  binary32 does to them.  `double` is binary64 in the same way (`f64_round`).
* The memory object that the pointers of a callback point into is the reply
  message (its attribute area).  A read past the end of an attribute but
  inside the message yields the bytes that lie there.  A read outside the
  message is undefined behaviour in C; the embedding marks it (`none`, or the
  flag of `gwi_scan_cb_run`, which keeps the record as written up to that
  read).
-/

namespace PrintWifiNl

/-! ## Machine integers -/

/-- The value of a `uint32_t`/wider integer converted to `int32_t`/`int`
(two's complement wrap). -/
def to_int32 (n : Int) : Int :=
  let r := n % 4294967296
  if r < 2147483648 then r else r - 4294967296

/-- The value of an integer converted to `uint32_t`. -/
def to_uint32 (n : Int) : Nat :=
  (n % 4294967296).toNat

/-! ## binary32 arithmetic -/

/-- An exact fraction `num / den` (`den > 0`), the value of a finite float. -/
structure Frac where
  num : Int
  den : Nat
deriving Repr, DecidableEq

/-- The fraction of an integer: the conversion `(float) i` is exact for
`|i| < 2^24`. -/
def Frac.ofInt (i : Int) : Frac := ⟨i, 1⟩

/-- Exact difference. -/
def Frac.sub (a b : Frac) : Frac :=
  ⟨a.num * b.den - b.num * a.den, a.den * b.den⟩

/-- Exact product. -/
def Frac.mul (a b : Frac) : Frac :=
  ⟨a.num * b.num, a.den * b.den⟩

/-- Exact quotient (divisor non-zero; the sign is moved to the numerator). -/
def Frac.div (a b : Frac) : Frac :=
  if b.num < 0 then ⟨-(a.num * b.den), a.den * b.num.natAbs⟩
  else ⟨a.num * b.den, a.den * b.num.natAbs⟩

/-- Number of binary digits of `n` (`0` for `0`); the first argument is fuel,
`n` itself is always enough. -/
def bitlen : Nat → Nat → Nat
  | 0, _ => 0
  | fuel + 1, n => if n = 0 then 0 else bitlen fuel (n / 2) + 1

/-- Round the positive fraction `n / d` to the nearest value with a 24-bit
significand, ties to even.  With `e = ⌊log2 (n/d)⌋` the significand is
`n/d * 2^(23-e)` rounded to an integer. -/
def f32_round_pos (n d : Nat) : Frac :=
  let ln : Int := bitlen n n
  let ld : Int := bitlen d d
  -- 2^(ln-ld-1) < n/d < 2^(ln-ld+1)
  let e : Int := if d * 2 ^ (ln - ld).toNat ≤ n * 2 ^ (ld - ln).toNat then ln - ld else ln - ld - 1
  let s : Int := 23 - e
  let N : Nat := n * 2 ^ s.toNat
  let D : Nat := d * 2 ^ (-s).toNat
  let q := N / D
  let r := N % D
  let m := if 2 * r > D ∨ (2 * r = D ∧ q % 2 = 1) then q + 1 else q
  ⟨(m * 2 ^ (-s).toNat : Nat), 2 ^ s.toNat⟩

/-- Round a fraction to binary32 (round to nearest, ties to even). -/
def f32_round (x : Frac) : Frac :=
  if x.num = 0 then ⟨0, 1⟩
  else if x.num < 0 then
    let r := f32_round_pos x.num.natAbs x.den
    ⟨-r.num, r.den⟩
  else f32_round_pos x.num.natAbs x.den

/-- The conversion `(float) i`. -/
def f32_of_int (i : Int) : Frac := f32_round (Frac.ofInt i)

/-- The binary32 subtraction. -/
def f32_sub (a b : Frac) : Frac := f32_round (a.sub b)

/-- The binary32 multiplication. -/
def f32_mul (a b : Frac) : Frac := f32_round (a.mul b)

/-- The binary32 division. -/
def f32_div (a b : Frac) : Frac := f32_round (a.div b)

/-- The conversion of a float to `uint32_t`: the fractional part is discarded
(truncation toward zero). -/
def f32_to_uint32 (x : Frac) : Nat := to_uint32 (Int.tdiv x.num x.den)

/-! ## `nl80211_xbm_to_percent` -/

/-- The macro `NOISE_FLOOR_DBM`. -/
def NOISE_FLOOR_DBM : Int := -90

/-- The macro `SIGNAL_MAX_DBM`. -/
def SIGNAL_MAX_DBM : Int := -20

/-- The function `nl80211_xbm_to_percent`:
`xbm /= divisor`, clamp to `[NOISE_FLOOR_DBM, SIGNAL_MAX_DBM]`, then
`100 - 70 * (((float)MAX - (float)xbm) / ((float)MAX - (float)FLOOR))`
evaluated in `float` and converted to `uint32_t`. -/
def nl80211_xbm_to_percent (xbm divisor : Int) : Nat :=
  let xbm := to_int32 (Int.tdiv xbm divisor)
  let xbm := if xbm < NOISE_FLOOR_DBM then NOISE_FLOOR_DBM else xbm
  let xbm := if xbm > SIGNAL_MAX_DBM then SIGNAL_MAX_DBM else xbm
  f32_to_uint32
    (f32_sub (f32_of_int 100)
      (f32_mul (f32_of_int 70)
        (f32_div (f32_sub (f32_of_int SIGNAL_MAX_DBM) (f32_of_int xbm))
          (f32_sub (f32_of_int SIGNAL_MAX_DBM) (f32_of_int NOISE_FLOOR_DBM)))))

/-! ## Netlink attribute streams -/

/-- Modelled from the spec: the header of one attribute record, length (2
bytes) and type (2 bytes), both in host byte order (little endian). -/
def NLA_HDRLEN : Nat := 4

/-- Modelled from the spec: records are padded to 4-byte alignment. -/
def NLA_ALIGN (len : Nat) : Nat := (len + 3) / 4 * 4

/-- The attribute types named in the policy tables of the two callbacks. -/
inductive nla_type_t where
  | NLA_UNSPEC
  | NLA_U8
  | NLA_U16
  | NLA_U32
  | NLA_NESTED
deriving Repr, DecidableEq

/-- A policy table `struct nla_policy p[MAX + 1]`: the `.type` of every code;
entries that the initialiser does not name are zero, i.e. `NLA_UNSPEC`. -/
abbrev nla_policy := Nat → nla_type_t

/-- Modelled from the spec: libnl's validation of an attribute against its
policy entry is not under src/.  The policy type fixes the minimum payload
length an attribute of that code must have (`NLA_U8` 1, `NLA_U16` 2, `NLA_U32`
4, none for `NLA_UNSPEC` and `NLA_NESTED`). -/
def nla_attr_minlen : nla_type_t → Nat
  | .NLA_UNSPEC => 0
  | .NLA_U8 => 1
  | .NLA_U16 => 2
  | .NLA_U32 => 4
  | .NLA_NESTED => 0

/-- A decoded attribute (`struct nlattr *`): the byte span of its payload in
the buffer that was decoded. -/
structure nlattr where
  off : Nat
  len : Nat
deriving Repr, DecidableEq

/-- The table `struct nlattr *tb[MAX + 1]` filled by a decode: code to span,
`none` for `NULL`. -/
abbrev attr_table := Nat → Option nlattr

/-- The 16-bit little-endian value at offset `i`. -/
def get_le16 (buf : List Nat) (i : Nat) : Nat :=
  buf.getD i 0 + 256 * buf.getD (i + 1) 0

/-- Modelled from the spec: the walk of libnl's `nla_parse`, which is not
under src/.  Records are (length: 2 bytes, type: 2 bytes, value, padding to
4-byte alignment).  A record whose declared length is below the header size or
runs past the input fails the decode (Truncated), a type code above `maxtype`
is dropped, a record that violates the policy fails the decode, and a later
record of the same code replaces an earlier one.  The two flag bits of the
type field are masked off.  The first argument is fuel (see
`nla_parse_loop_fuel`); every step consumes at least four bytes. -/
def nla_parse_loop (maxtype : Nat) (policy : Option nla_policy) (buf : List Nat) :
    Nat → Nat → attr_table → Option attr_table
  | 0, pos, tb => if buf.length ≤ pos then some tb else none
  | fuel + 1, pos, tb =>
    let rem := buf.length - pos
    if rem = 0 then some tb
    else if rem < NLA_HDRLEN then none
    else
      let len := get_le16 buf pos
      let type := get_le16 buf (pos + 2) % 16384
      if len < NLA_HDRLEN ∨ rem < len then none
      else if maxtype < type then
        nla_parse_loop maxtype policy buf fuel (pos + NLA_ALIGN len) tb
      else
        let ok := match policy with
          | none => true
          | some p => decide (nla_attr_minlen (p type) ≤ len - NLA_HDRLEN)
        if ok then
          nla_parse_loop maxtype policy buf fuel (pos + NLA_ALIGN len)
            (fun c => if c = type then some ⟨pos + NLA_HDRLEN, len - NLA_HDRLEN⟩ else tb c)
        else none

/-- Modelled from the spec: libnl's `nla_parse(tb, maxtype, head, len, policy)`
(not under src/), the AttributeDecoder of the spec: `none` stands for a
negative return value. -/
def nla_parse (maxtype : Nat) (buf : List Nat) (policy : Option nla_policy) :
    Option attr_table :=
  nla_parse_loop maxtype policy buf buf.length 0 (fun _ => none)

/-- Modelled from the spec: libnl's `nla_data` (not under src/), the value
span of a decoded attribute as bytes, `nla_len` bytes long. -/
def nla_data (buf : List Nat) (a : nlattr) : List Nat :=
  (buf.drop a.off).take a.len

/-- Modelled from the spec: libnl's `nla_len` (not under src/), the length of
the value span. -/
def nla_len (a : nlattr) : Nat := a.len

/-- Modelled from the spec: libnl's `nla_parse_nested` (not under src/): the
decode applied to the payload of a container attribute. -/
def nla_parse_nested (maxtype : Nat) (buf : List Nat) (a : nlattr)
    (policy : Option nla_policy) : Option attr_table :=
  nla_parse maxtype (nla_data buf a) policy

/-- The first `n` bytes of a memory object from a pointer on, `none` when the
object ends before (a read past its end). -/
def read_bytes (p : List Nat) (n : Nat) : Option (List Nat) :=
  if n ≤ p.length then some (p.take n) else none

/-- Modelled from the spec: libnl's accessor `nla_get_u8` (not under src/),
the first byte of the value span. -/
def nla_get_u8 (buf : List Nat) (a : nlattr) : Option Nat :=
  match nla_data buf a with
  | b0 :: _ => some b0
  | _ => none

/-- Modelled from the spec: libnl's accessor `nla_get_u16` (not under src/),
the first two bytes of the value span in host byte order (little endian). -/
def nla_get_u16 (buf : List Nat) (a : nlattr) : Option Nat :=
  match nla_data buf a with
  | b0 :: b1 :: _ => some (b0 + 256 * b1)
  | _ => none

/-- Modelled from the spec: libnl's accessor `nla_get_u32` (not under src/),
the first four bytes of the value span in host byte order (little endian). -/
def nla_get_u32 (buf : List Nat) (a : nlattr) : Option Nat :=
  match nla_data buf a with
  | b0 :: b1 :: b2 :: b3 :: _ => some (b0 + 256 * b1 + 65536 * b2 + 16777216 * b3)
  | _ => none

/-! ## Constants of `<linux/nl80211.h>` and `<linux/if_ether.h>`

The headers are kernel UAPI and not under src/; the spec names the attributes
without their numbers.  The attribute codes are fixed ABI.  The `*_MAX` bounds
grow with the kernel version; they are fixed here at values of the order of a
recent header.  The theorems about all messages hold for any values, and the
concrete messages below are built from the same constants, so nothing depends
on the numbers beyond the codes of one table being distinct and at most the
bound of the table. -/

/-- Length of a hardware address (`<linux/if_ether.h>`). -/
def ETH_ALEN : Nat := 6

/-- The macro `IW_ESSID_MAX_SIZE`. -/
def IW_ESSID_MAX_SIZE : Nat := 32

/-- Bound of the top-level attribute codes. -/
def NL80211_ATTR_MAX : Nat := 332
/-- Top-level code of the station-info container. -/
def NL80211_ATTR_STA_INFO : Nat := 21
/-- Top-level code of the BSS container. -/
def NL80211_ATTR_BSS : Nat := 47

/-- Bound of the BSS attribute codes. -/
def NL80211_BSS_MAX : Nat := 24
/-- BSS code of the BSSID. -/
def NL80211_BSS_BSSID : Nat := 1
/-- BSS code of the frequency in MHz. -/
def NL80211_BSS_FREQUENCY : Nat := 2
/-- BSS code of the information elements. -/
def NL80211_BSS_INFORMATION_ELEMENTS : Nat := 6
/-- BSS code of the signal strength in mBm. -/
def NL80211_BSS_SIGNAL_MBM : Nat := 7
/-- BSS code of the signal strength in unspecified units. -/
def NL80211_BSS_SIGNAL_UNSPEC : Nat := 8
/-- BSS code of the association status. -/
def NL80211_BSS_STATUS : Nat := 9

/-- Status value: associated with this BSS. -/
def NL80211_BSS_STATUS_ASSOCIATED : Nat := 1
/-- Status value: joined to this IBSS. -/
def NL80211_BSS_STATUS_IBSS_JOINED : Nat := 2

/-- Bound of the station-info codes. -/
def NL80211_STA_INFO_MAX : Nat := 44
/-- Station-info code of the receive bitrate container. -/
def NL80211_STA_INFO_RX_BITRATE : Nat := 14

/-- Bound of the rate-info codes. -/
def NL80211_RATE_INFO_MAX : Nat := 22
/-- Rate-info code of the 16-bit bitrate in units of 100 kbit/s. -/
def NL80211_RATE_INFO_BITRATE : Nat := 1

/-! ## The record -/

/-- The struct `wireless_info_t`.  `essid` is the `char[33]` array, `bssid` the
`uint8_t[6]` array.  `frequency` is the `double` field, in Hz: every value the
program stores is a 32-bit number times 10^6, below 2^53, which a double holds
exactly (`frequency_double_exact`), so the field is kept as a natural
number. -/
structure wireless_info_t where
  flags : Int
  essid : List Nat
  bssid : List Nat
  quality : Int
  signal_level : Int
  noise_level : Int
  bitrate : Int
  frequency : Nat
deriving Repr, DecidableEq

/-- The record after `memset(info, 0, sizeof(wireless_info_t))`. -/
def wireless_info_zero : wireless_info_t :=
  { flags := 0
    essid := List.replicate (IW_ESSID_MAX_SIZE + 1) 0
    bssid := List.replicate ETH_ALEN 0
    quality := 0
    signal_level := 0
    noise_level := 0
    bitrate := 0
    frequency := 0 }

/-- The string a `char` array holds: the bytes before the first NUL. -/
def c_str (a : List Nat) : List Nat := a.takeWhile (· ≠ 0)

/-! ## `find_ssid` -/

/-- The macro `WLAN_EID_SSID`. -/
def WLAN_EID_SSID : Nat := 0

/-- The `while` loop of `find_ssid`.  The first argument is the memory object
the pointer `ies` points into; the state is the offset `p` of the pointer in
this object and the `uint32_t` counter `ies_len`; the result is the state on
leaving the loop, or `none` when `ies[0]` or `ies[1]` is read outside the
object.  The second argument is fuel (see `find_ssid_loop_fuel`): an iteration
needs two readable bytes at `p` and moves `p` forward by at least two. -/
def find_ssid_loop (ies : List Nat) : Nat → Nat → Nat → Option (Nat × Nat)
  | 0, _, _ => none
  | fuel + 1, p, ies_len =>
    if 2 < ies_len then
      match ies[p]? with
      | none => none
      | some id =>
        if id ≠ WLAN_EID_SSID then
          match ies[p + 1]? with
          | none => none
          | some l =>
            find_ssid_loop ies fuel (p + (l + 2))
              ((ies_len + 4294967296 - (l + 2)) % 4294967296)
        else some (p, ies_len)
    else some (p, ies_len)

/-- The part of `find_ssid` after the loop: the two length tests and the
assignment of the results.  The result is `(ssid, ssid_len)`, `ssid` being the
offset the returned pointer has in the memory object (`none` for `NULL`); the
whole result is `none` when `ies[1]` is read outside the object. -/
def find_ssid_exit (ies : List Nat) (p ies_len : Nat) : Option (Option Nat × Nat) :=
  if ies_len < 2 then some (none, 0)
  else
    match ies[p + 1]? with
    | none => none
    | some l =>
      if ies_len < (2 + l) % 4294967296 then some (none, 0)
      else some (some (p + 2), l)

/-- The function `find_ssid(ies, ies_len, &ssid, &ssid_len)` called with the
pointer `ies` at offset `base` of the memory object `mem`: the loop, then the
tests after it.  The returned pointer is an offset in `mem`; `none` when a
byte outside `mem` is read. -/
def find_ssid_at (mem : List Nat) (base ies_len : Nat) : Option (Option Nat × Nat) :=
  match find_ssid_loop mem (mem.length + 1) base ies_len with
  | none => none
  | some (p, ies_len) => find_ssid_exit mem p ies_len

/-- The function `find_ssid(ies, ies_len, &ssid, &ssid_len)` on a buffer `ies`
that is a memory object of its own: `none` when a byte outside the buffer is
read. -/
def find_ssid (ies : List Nat) (ies_len : Nat) : Option (Option Nat × Nat) :=
  find_ssid_at ies 0 ies_len

/-- The call `snprintf(dst, size, "%.*s", prec, src)`: at most `prec` bytes of
`src` are taken, stopping before a NUL; at most `size - 1` of them are stored,
followed by a NUL; the rest of `dst` is untouched.  `src` is the object from
the pointer on; `none` when the scan for the end of the string leaves it. -/
def snprintf_prec_s (dst : List Nat) (size prec : Nat) (src : List Nat) :
    Option (List Nat) :=
  let avail := src.take prec
  if avail.length < prec ∧ 0 ∉ avail then none
  else
    let s := avail.takeWhile (· ≠ 0)
    let w := s.take (size - 1)
    some (w ++ [0] ++ dst.drop (w.length + 1))

/-! ## `gwi_sta_cb` -/

/-- The table `stats_policy` of `gwi_sta_cb`. -/
def stats_policy : nla_policy := fun c =>
  if c = NL80211_STA_INFO_RX_BITRATE then .NLA_NESTED else .NLA_UNSPEC

/-- The table `rate_policy` of `gwi_sta_cb`. -/
def rate_policy : nla_policy := fun c =>
  if c = NL80211_RATE_INFO_BITRATE then .NLA_U16 else .NLA_UNSPEC

/-- The callback `gwi_sta_cb`.  `msg` is the attribute area of the reply
(`genlmsg_attrdata`, `genlmsg_attrlen` bytes).  Every path returns `NL_SKIP`,
so the result is the record after the call.  The product
`(int)u16 * 100 * 1000` is computed in `int`; where it leaves the range of
`int` the C behaviour is undefined and the embedding takes the two's
complement wrap. -/
def gwi_sta_cb (msg : List Nat) (info : wireless_info_t) : Option wireless_info_t :=
  match nla_parse NL80211_ATTR_MAX msg none with
  | none => some info
  | some tb =>
  match tb NL80211_ATTR_STA_INFO with
  | none => some info
  | some sta =>
  match nla_parse_nested NL80211_STA_INFO_MAX msg sta (some stats_policy) with
  | none => some info
  | some sinfo =>
  match sinfo NL80211_STA_INFO_RX_BITRATE with
  | none => some info
  | some rx =>
  match nla_parse_nested NL80211_RATE_INFO_MAX (nla_data msg sta) rx (some rate_policy) with
  | none => some info
  | some rinfo =>
  match rinfo NL80211_RATE_INFO_BITRATE with
  | none => some info
  | some br =>
  match nla_get_u16 (nla_data (nla_data msg sta) rx) br with
  | none => none
  | some r => some { info with bitrate := to_int32 (to_int32 ((r : Int) * 100) * 1000) }

/-! ## `gwi_scan_cb` -/

/-- The table `bss_policy` of `gwi_scan_cb`. -/
def bss_policy : nla_policy := fun c =>
  if c = NL80211_BSS_FREQUENCY then .NLA_U32
  else if c = NL80211_BSS_SIGNAL_MBM then .NLA_U32
  else if c = NL80211_BSS_SIGNAL_UNSPEC then .NLA_U8
  else if c = NL80211_BSS_STATUS then .NLA_U32
  else .NLA_UNSPEC

/-- The block `if (bss[NL80211_BSS_FREQUENCY])` of `gwi_scan_cb`; `nbuf` is the
payload of the BSS container and `bss` its decoded table. -/
def scan_frequency (nbuf : List Nat) (bss : attr_table) (info : wireless_info_t) :
    Option wireless_info_t :=
  match bss NL80211_BSS_FREQUENCY with
  | none => some info
  | some a =>
    match nla_get_u32 nbuf a with
    | none => none
    | some f => some { info with frequency := f * 1000000 }

/-- The block `if (bss[NL80211_BSS_SIGNAL_UNSPEC])` of `gwi_scan_cb`. -/
def scan_signal_unspec (nbuf : List Nat) (bss : attr_table) (info : wireless_info_t) :
    Option wireless_info_t :=
  match bss NL80211_BSS_SIGNAL_UNSPEC with
  | none => some info
  | some a =>
    match nla_get_u8 nbuf a with
    | none => none
    | some u => some { info with signal_level := u, quality := u }

/-- The block `if (bss[NL80211_BSS_SIGNAL_MBM])` of `gwi_scan_cb`. -/
def scan_signal_mbm (nbuf : List Nat) (bss : attr_table) (info : wireless_info_t) :
    Option wireless_info_t :=
  match bss NL80211_BSS_SIGNAL_MBM with
  | none => some info
  | some a =>
    match nla_get_u32 nbuf a with
    | none => none
    | some m =>
      some { info with
        signal_level := Int.tdiv (to_int32 m) 100
        quality := to_int32 (nl80211_xbm_to_percent (to_int32 m) 100) }

/-- The block `if (bss[NL80211_BSS_INFORMATION_ELEMENTS])` of `gwi_scan_cb`:
`find_ssid` on the payload, then `snprintf` into `essid` when
`ssid && ssid_len`.  `msg` is the reply, `nbss` the BSS container in it and
`bss` its decoded table, so that the payload of the attribute starts at offset
`nbss.off + a.off` of the message; both calls read the message from there.
`none` when a byte outside the message is read. -/
def scan_essid (msg : List Nat) (nbss : nlattr) (bss : attr_table) (info : wireless_info_t) :
    Option wireless_info_t :=
  match bss NL80211_BSS_INFORMATION_ELEMENTS with
  | none => some info
  | some a =>
    match find_ssid_at msg (nbss.off + a.off) (nla_len a) with
    | none => none
    | some (none, _) => some info
    | some (some off, ssid_len) =>
      if ssid_len ≠ 0 then
        match snprintf_prec_s info.essid (IW_ESSID_MAX_SIZE + 1) ssid_len (msg.drop off) with
        | none => none
        | some e => some { info with essid := e }
      else some info

/-- The part of `gwi_scan_cb` after the `memcpy` of the BSSID: the four
optional blocks in the order of the source, each on the record the one before
it has written.  The result is the record and a flag; the flag is set when a
byte outside the message is read, and the record is then the one written up
to that read. -/
def gwi_scan_fill (msg : List Nat) (nbss : nlattr) (bss : attr_table)
    (info : wireless_info_t) : wireless_info_t × Bool :=
  match scan_frequency (nla_data msg nbss) bss info with
  | none => (info, true)
  | some i1 =>
  match scan_signal_unspec (nla_data msg nbss) bss i1 with
  | none => (i1, true)
  | some i2 =>
  match scan_signal_mbm (nla_data msg nbss) bss i2 with
  | none => (i2, true)
  | some i3 =>
  match scan_essid msg nbss bss i3 with
  | none => (i3, true)
  | some r => (r, false)

/-- The callback `gwi_scan_cb`, statement by statement.  `msg` is the
attribute area of the reply.  Every path returns `NL_SKIP`.  The result is the
record and a flag: the flag is clear when the callback returns having read
inside the message only, and the record is then the record on return; the
flag is set when a byte outside the message is read, and the record is then
the one written up to that read.  The `memcpy` of the BSSID reads `ETH_ALEN`
bytes of the message from the start of the attribute's payload. -/
def gwi_scan_cb_run (msg : List Nat) (info : wireless_info_t) : wireless_info_t × Bool :=
  match nla_parse NL80211_ATTR_MAX msg none with
  | none => (info, false)
  | some tb =>
  match tb NL80211_ATTR_BSS with
  | none => (info, false)
  | some nbss =>
  match nla_parse_nested NL80211_BSS_MAX msg nbss (some bss_policy) with
  | none => (info, false)
  | some bss =>
  match bss NL80211_BSS_STATUS with
  | none => (info, false)
  | some st =>
  match nla_get_u32 (nla_data msg nbss) st with
  | none => (info, true)
  | some status =>
  if status ≠ NL80211_BSS_STATUS_ASSOCIATED ∧ status ≠ NL80211_BSS_STATUS_IBSS_JOINED then
    (info, false)
  else
  match bss NL80211_BSS_BSSID with
  | none => (info, false)
  | some b =>
  match read_bytes (msg.drop (nbss.off + b.off)) ETH_ALEN with
  | none => (info, true)
  | some mac => gwi_scan_fill msg nbss bss { info with bssid := mac }

/-- The callback `gwi_scan_cb` as the lookup sees it: the record on return,
`none` when the callback reads a byte outside the message (the behaviour of
the rest of the lookup is then undefined). -/
def gwi_scan_cb (msg : List Nat) (info : wireless_info_t) : Option wireless_info_t :=
  match gwi_scan_cb_run msg info with
  | (r, false) => some r
  | (_, true) => none

/-! ## `get_wireless_info` -/

/-- What the environment answers to the library calls of one
`get_wireless_info(interface, info)`: the return values of the calls and the
reply messages (attribute areas) that `nl_send_sync` hands to the registered
`NL_CB_VALID` callback.  The station request carries the BSSID found by the
scan, so its outcome is a function of it. -/
structure nl_env where
  genl_connect : Int
  modify_cb_scan : Int
  genl_ctrl_resolve : Int
  if_nametoindex : Nat
  nlmsg_alloc_scan : Bool
  put_scan : Bool
  scan_replies : List (List Nat)
  send_scan : Int
  modify_cb_sta : Int
  nlmsg_alloc_sta : Bool
  put_sta : Bool
  sta_replies : List Nat → List (List Nat)
  send_sta : List Nat → Int

/-- A callback that always returns `NL_SKIP` is run on every reply in turn. -/
def run_cb (cb : List Nat → wireless_info_t → Option wireless_info_t) :
    List (List Nat) → wireless_info_t → Option wireless_info_t
  | [], info => some info
  | m :: ms, info =>
    match cb m info with
    | none => none
    | some info1 => run_cb cb ms info1

/-- The function `get_wireless_info(interface, info)`: the return value (1 on
success, 0 on the `error1`/`error2` paths) and the record `*info` on return.
The second argument is the content of `*info` on entry. -/
def get_wireless_info (env : nl_env) (_info : wireless_info_t) :
    Option (Int × wireless_info_t) :=
  let info := wireless_info_zero
  if env.genl_connect ≠ 0 then some (0, info)
  else if env.modify_cb_scan < 0 then some (0, info)
  else if env.genl_ctrl_resolve < 0 then some (0, info)
  else if env.if_nametoindex = 0 then some (0, info)
  else if env.nlmsg_alloc_scan = false then some (0, info)
  else if env.put_scan = false then some (0, info)
  else
    match run_cb gwi_scan_cb env.scan_replies info with
    | none => none
    | some info =>
      if env.send_scan < 0 then some (0, info)
      else if env.modify_cb_sta < 0 then some (0, info)
      else if env.nlmsg_alloc_sta = false then some (0, info)
      else if env.put_sta = false then some (0, info)
      else
        match run_cb gwi_sta_cb (env.sta_replies info.bssid) info with
        | none => none
        | some info =>
          if env.send_sta info.bssid < 0 then some (0, info)
          else some (1, info)

/-! ## Building buffers -/

/-- The two little-endian bytes of a 16-bit value. -/
def le16_bytes (v : Nat) : List Nat := [v % 256, v / 256 % 256]

/-- The four little-endian bytes of a 32-bit value. -/
def le32_bytes (v : Nat) : List Nat :=
  [v % 256, v / 256 % 256, v / 65536 % 256, v / 16777216 % 256]

/-- The bytes of one attribute record: header, payload and padding. -/
def attr_bytes (type : Nat) (payload : List Nat) : List Nat :=
  le16_bytes (payload.length + NLA_HDRLEN) ++ le16_bytes type ++ payload ++
    List.replicate (NLA_ALIGN payload.length - payload.length) 0

/-- The bytes of one information element: id, length, payload. -/
def ie_bytes (e : Nat × List Nat) : List Nat :=
  e.1 :: e.2.length :: e.2

/-- The bytes of a sequence of information elements. -/
def ies_bytes : List (Nat × List Nat) → List Nat
  | [] => []
  | e :: es => ie_bytes e ++ ies_bytes es

/-! ## Notions used in the statements -/

/-- The clamp of `nl80211_xbm_to_percent` to `[NOISE_FLOOR_DBM, SIGNAL_MAX_DBM]`. -/
def clamp_dbm (x : Int) : Int :=
  if x < -90 then -90 else if x > -20 then -20 else x

/-- A decoded span lies inside the decoded buffer and has the minimum length
its policy entry asks for. -/
def attr_ok (policy : Option nla_policy) (buf : List Nat) (c : Nat) (a : nlattr) : Prop :=
  a.off + a.len ≤ buf.length ∧ ∀ p, policy = some p → nla_attr_minlen (p c) ≤ a.len

/-- Every element of the buffer is a byte. -/
def is_bytes (buf : List Nat) : Prop := ∀ b ∈ buf, b < 256

instance is_bytes_decidable (buf : List Nat) : Decidable (is_bytes buf) :=
  inferInstanceAs (Decidable (∀ b ∈ buf, b < 256))

/-- Every element's payload fits the one-byte length field. -/
def ies_wf (els : List (Nat × List Nat)) : Prop := ∀ e ∈ els, e.2.length ≤ 255

instance ies_wf_decidable (els : List (Nat × List Nat)) : Decidable (ies_wf els) :=
  inferInstanceAs (Decidable (∀ e ∈ els, e.2.length ≤ 255))

/-- Every library call of `get_wireless_info` succeeds. -/
def env_ok (env : nl_env) : Prop :=
  env.genl_connect = 0 ∧ 0 ≤ env.modify_cb_scan ∧ 0 ≤ env.genl_ctrl_resolve ∧
  env.if_nametoindex ≠ 0 ∧ env.nlmsg_alloc_scan = true ∧ env.put_scan = true ∧
  0 ≤ env.send_scan ∧ 0 ≤ env.modify_cb_sta ∧ env.nlmsg_alloc_sta = true ∧
  env.put_sta = true ∧ ∀ b, 0 ≤ env.send_sta b

/-- The status field of the BSS entry that a scan reply carries, when the
reply decodes that far (the lookups of `gwi_scan_cb` up to the status test). -/
def scan_entry_status (msg : List Nat) : Option Nat :=
  match nla_parse NL80211_ATTR_MAX msg none with
  | none => none
  | some tb =>
  match tb NL80211_ATTR_BSS with
  | none => none
  | some nbss =>
  match nla_parse_nested NL80211_BSS_MAX msg nbss (some bss_policy) with
  | none => none
  | some bss =>
  match bss NL80211_BSS_STATUS with
  | none => none
  | some st => nla_get_u32 (nla_data msg nbss) st

/-- The reasons for which `gwi_scan_cb` is to skip a reply: the top-level
decode fails, the BSS attribute is absent, the nested decode fails, the status
is absent, the status is not an accepted one, or the BSSID is absent. -/
def scan_skip_reason (msg : List Nat) : Prop :=
  nla_parse NL80211_ATTR_MAX msg none = none ∨
  (∃ tb, nla_parse NL80211_ATTR_MAX msg none = some tb ∧ tb NL80211_ATTR_BSS = none) ∨
  (∃ tb nbss, nla_parse NL80211_ATTR_MAX msg none = some tb ∧
    tb NL80211_ATTR_BSS = some nbss ∧
    nla_parse_nested NL80211_BSS_MAX msg nbss (some bss_policy) = none) ∨
  (∃ tb nbss bss, nla_parse NL80211_ATTR_MAX msg none = some tb ∧
    tb NL80211_ATTR_BSS = some nbss ∧
    nla_parse_nested NL80211_BSS_MAX msg nbss (some bss_policy) = some bss ∧
    bss NL80211_BSS_STATUS = none) ∨
  (∃ tb nbss bss st status, nla_parse NL80211_ATTR_MAX msg none = some tb ∧
    tb NL80211_ATTR_BSS = some nbss ∧
    nla_parse_nested NL80211_BSS_MAX msg nbss (some bss_policy) = some bss ∧
    bss NL80211_BSS_STATUS = some st ∧
    nla_get_u32 (nla_data msg nbss) st = some status ∧
    status ≠ NL80211_BSS_STATUS_ASSOCIATED ∧ status ≠ NL80211_BSS_STATUS_IBSS_JOINED) ∨
  (∃ tb nbss bss, nla_parse NL80211_ATTR_MAX msg none = some tb ∧
    tb NL80211_ATTR_BSS = some nbss ∧
    nla_parse_nested NL80211_BSS_MAX msg nbss (some bss_policy) = some bss ∧
    bss NL80211_BSS_BSSID = none)

/-- A link of the chain STA_INFO, RX_BITRATE, BITRATE is missing from a
station reply: a decode fails or an attribute is absent. -/
def sta_chain_missing (msg : List Nat) : Prop :=
  nla_parse NL80211_ATTR_MAX msg none = none ∨
  (∃ tb, nla_parse NL80211_ATTR_MAX msg none = some tb ∧ tb NL80211_ATTR_STA_INFO = none) ∨
  (∃ tb sta, nla_parse NL80211_ATTR_MAX msg none = some tb ∧
    tb NL80211_ATTR_STA_INFO = some sta ∧
    nla_parse_nested NL80211_STA_INFO_MAX msg sta (some stats_policy) = none) ∨
  (∃ tb sta sinfo, nla_parse NL80211_ATTR_MAX msg none = some tb ∧
    tb NL80211_ATTR_STA_INFO = some sta ∧
    nla_parse_nested NL80211_STA_INFO_MAX msg sta (some stats_policy) = some sinfo ∧
    sinfo NL80211_STA_INFO_RX_BITRATE = none) ∨
  (∃ tb sta sinfo rx, nla_parse NL80211_ATTR_MAX msg none = some tb ∧
    tb NL80211_ATTR_STA_INFO = some sta ∧
    nla_parse_nested NL80211_STA_INFO_MAX msg sta (some stats_policy) = some sinfo ∧
    sinfo NL80211_STA_INFO_RX_BITRATE = some rx ∧
    nla_parse_nested NL80211_RATE_INFO_MAX (nla_data msg sta) rx (some rate_policy) = none) ∨
  (∃ tb sta sinfo rx rinfo, nla_parse NL80211_ATTR_MAX msg none = some tb ∧
    tb NL80211_ATTR_STA_INFO = some sta ∧
    nla_parse_nested NL80211_STA_INFO_MAX msg sta (some stats_policy) = some sinfo ∧
    sinfo NL80211_STA_INFO_RX_BITRATE = some rx ∧
    nla_parse_nested NL80211_RATE_INFO_MAX (nla_data msg sta) rx (some rate_policy)
      = some rinfo ∧
    rinfo NL80211_RATE_INFO_BITRATE = none)

/-- A scan reply with one BSS entry: the given BSSID, frequency (MHz),
information elements, signal (mBm, as the 32-bit two's complement pattern) and
status. -/
def scan_reply (bssid : List Nat) (freq : Nat) (ies : List Nat) (mbm : Nat)
    (status : Nat) : List Nat :=
  attr_bytes NL80211_ATTR_BSS
    (attr_bytes NL80211_BSS_BSSID bssid ++
     attr_bytes NL80211_BSS_FREQUENCY (le32_bytes freq) ++
     attr_bytes NL80211_BSS_INFORMATION_ELEMENTS ies ++
     attr_bytes NL80211_BSS_SIGNAL_MBM (le32_bytes mbm) ++
     attr_bytes NL80211_BSS_STATUS (le32_bytes status))

/-- A station reply that carries the 16-bit bitrate `r` through the chain
STA_INFO, RX_BITRATE, BITRATE. -/
def sta_reply (r : Nat) : List Nat :=
  attr_bytes NL80211_ATTR_STA_INFO
    (attr_bytes NL80211_STA_INFO_RX_BITRATE
      (attr_bytes NL80211_RATE_INFO_BITRATE (le16_bytes r)))

/-- A station reply whose station info has no receive bitrate container (only
the attribute of code 7, the signal, with one byte). -/
def sta_reply_no_rate : List Nat :=
  attr_bytes NL80211_ATTR_STA_INFO (attr_bytes 7 [200])

/-- An environment in which every call succeeds, with the given replies. -/
def env_of (scan : List (List Nat)) (sta : List (List Nat)) : nl_env :=
  { genl_connect := 0
    modify_cb_scan := 0
    genl_ctrl_resolve := 28
    if_nametoindex := 3
    nlmsg_alloc_scan := true
    put_scan := true
    scan_replies := scan
    send_scan := 0
    modify_cb_sta := 0
    nlmsg_alloc_sta := true
    put_sta := true
    sta_replies := fun _ => sta
    send_sta := fun _ => 0 }

/-- The hardware address aa:bb:cc:dd:ee:ff. -/
def mac_aabb : List Nat := [0xaa, 0xbb, 0xcc, 0xdd, 0xee, 0xff]

/-- The bytes of "Home". -/
def ssid_home : List Nat := [72, 111, 109, 101]

/-- The bytes of "Test". -/
def ssid_test : List Nat := [84, 101, 115, 116]

/-- The scan reply of the end-to-end scenario: status ASSOCIATED, BSSID
aa:bb:cc:dd:ee:ff, 2412 MHz, SSID "Home" followed by a supported-rates
element, signal -5500 mBm. -/
def home_scan_reply : List Nat :=
  scan_reply mac_aabb 2412
    (ies_bytes [(0, ssid_home), (1, [0x82, 0x84])]) (4294967296 - 5500)
    NL80211_BSS_STATUS_ASSOCIATED

/-- The value the signal formula has in exact arithmetic, truncated toward
zero: `100 - 70 * (-20 - x) / (-20 - (-90))` with `x` the clamped `m / 100`,
as the fraction `(100 * 70 - 70 * (-20 - x)) / 70`. -/
def xbm_percent_exact (m : Int) : Int :=
  Int.tdiv (100 * 70 - 70 * (SIGNAL_MAX_DBM - clamp_dbm (Int.tdiv m 100)))
    (SIGNAL_MAX_DBM - NOISE_FLOOR_DBM)

/-- The information-element stream `[0x00, 0x04, 'T','e','s','t', 0x01, 0x01, 0x00]`. -/
def test_ies : List Nat := [0x00, 0x04, 84, 101, 115, 116, 0x01, 0x01, 0x00]

/-- The record of the end-to-end scenario after both phases. -/
def home_info : wireless_info_t :=
  { flags := 0
    essid := ssid_home ++ List.replicate 29 0
    bssid := mac_aabb
    quality := 65
    signal_level := -55
    noise_level := 0
    bitrate := 72000000
    frequency := 2412000000 }

/-- A scan reply whose SSID element has the three payload bytes 'A', NUL, 'B'. -/
def nul_ssid_scan_reply : List Nat :=
  scan_reply mac_aabb 2412 (ies_bytes [(0, [65, 0, 66])]) 4294961796
    NL80211_BSS_STATUS_ASSOCIATED

/-- A scan reply whose SSID element has 40 payload bytes, all 'a'. -/
def long_ssid_scan_reply : List Nat :=
  scan_reply mac_aabb 2412 (ies_bytes [(0, List.replicate 40 97)]) 4294961796
    NL80211_BSS_STATUS_ASSOCIATED

/-! ## Notions used in the statements (continued) -/

/-- The scan reply `msg` carries an accepted BSS entry: it decodes to the BSS
container `nbss` with table `bss`, the status is ASSOCIATED or IBSS_JOINED, and
the BSSID attribute `b` is present with at least `ETH_ALEN` bytes. -/
def scan_entry_accepted (msg : List Nat) (nbss : nlattr) (bss : attr_table) (b : nlattr) :
    Prop :=
  ∃ tb st status, nla_parse NL80211_ATTR_MAX msg none = some tb ∧
    tb NL80211_ATTR_BSS = some nbss ∧
    nla_parse_nested NL80211_BSS_MAX msg nbss (some bss_policy) = some bss ∧
    bss NL80211_BSS_STATUS = some st ∧
    nla_get_u32 (nla_data msg nbss) st = some status ∧
    (status = NL80211_BSS_STATUS_ASSOCIATED ∨ status = NL80211_BSS_STATUS_IBSS_JOINED) ∧
    bss NL80211_BSS_BSSID = some b ∧ ETH_ALEN ≤ nla_len b

/-- A scan reply with one BSS entry that carries SIGNAL_UNSPEC `u` and no
SIGNAL_MBM. -/
def unspec_scan_reply (u : Nat) : List Nat :=
  attr_bytes NL80211_ATTR_BSS
    (attr_bytes NL80211_BSS_BSSID mac_aabb ++
     attr_bytes NL80211_BSS_SIGNAL_UNSPEC [u] ++
     attr_bytes NL80211_BSS_STATUS (le32_bytes NL80211_BSS_STATUS_ASSOCIATED))

/-- The scan reply of the end-to-end scenario with, as information elements,
the three bytes `[0x01, 0x05, 0x00]`: one element of id 1 whose declared
length 5 runs past the end of the attribute.  The attributes SIGNAL_MBM and
STATUS follow in the message. -/
def overlong_ie_scan_reply : List Nat :=
  scan_reply mac_aabb 2412 [1, 5, 0] 4294961796 NL80211_BSS_STATUS_ASSOCIATED

/-- A scan reply whose accepted entry carries the BSSID, the status, the
information elements `[0x01, 0x05, 0x00]` and after them an attribute of code
10 with the payload `03 41 00 00`.  It carries no frequency and no signal
attribute, and its information elements hold no SSID element. -/
def overrun_essid_scan_reply : List Nat :=
  attr_bytes NL80211_ATTR_BSS
    (attr_bytes NL80211_BSS_BSSID mac_aabb ++
     attr_bytes NL80211_BSS_STATUS (le32_bytes NL80211_BSS_STATUS_ASSOCIATED) ++
     attr_bytes NL80211_BSS_INFORMATION_ELEMENTS [1, 5, 0] ++
     attr_bytes 10 [3, 65, 0, 0])

/-! ## binary64 arithmetic, for the `double` product of the frequency -/

/-- The exponent `⌊log2 (n/d)⌋` of the positive fraction `n / d`. -/
def fp_exponent (n d : Nat) : Int :=
  let ln : Int := bitlen n n
  let ld : Int := bitlen d d
  if d * 2 ^ (ln - ld).toNat ≤ n * 2 ^ (ld - ln).toNat then ln - ld else ln - ld - 1

/-- The positive fraction `n / d` scaled by `2^s`, rounded to the nearest
integer (ties to even) and scaled back. -/
def fp_scaled_round (n d : Nat) (s : Int) : Frac :=
  let N : Nat := n * 2 ^ s.toNat
  let D : Nat := d * 2 ^ (-s).toNat
  let q := N / D
  let r := N % D
  let m := if 2 * r > D ∨ (2 * r = D ∧ q % 2 = 1) then q + 1 else q
  ⟨(m * 2 ^ (-s).toNat : Nat), 2 ^ s.toNat⟩

/-- Round the positive fraction `n / d` to the nearest value with a 53-bit
significand, ties to even (binary64 away from overflow and underflow). -/
def f64_round_pos (n d : Nat) : Frac :=
  fp_scaled_round n d (52 - fp_exponent n d)

/-- Round a fraction to binary64 (round to nearest, ties to even). -/
def f64_round (x : Frac) : Frac :=
  if x.num = 0 then ⟨0, 1⟩
  else if x.num < 0 then
    let r := f64_round_pos x.num.natAbs x.den
    ⟨-r.num, r.den⟩
  else f64_round_pos x.num.natAbs x.den

/-- The conversion `(double) i`. -/
def f64_of_int (i : Int) : Frac := f64_round (Frac.ofInt i)

/-- The binary64 multiplication. -/
def f64_mul (a b : Frac) : Frac := f64_round (a.mul b)

/-- The `double` expression `(double)f * 1e6` of `gwi_scan_cb`. -/
def frequency_double (f : Nat) : Frac :=
  f64_mul (f64_of_int f) (f64_round ⟨1000000, 1⟩)

/-- The hardware address 11:22:33:44:55:66. -/
def mac_1122 : List Nat := [0x11, 0x22, 0x33, 0x44, 0x55, 0x66]

/-- A second accepted scan reply: BSSID 11:22:33:44:55:66, 5180 MHz, SSID
"Test", signal -4000 mBm, status ASSOCIATED. -/
def second_scan_reply : List Nat :=
  scan_reply mac_1122 5180 test_ies (4294967296 - 4000) NL80211_BSS_STATUS_ASSOCIATED

/-- A scan reply whose accepted entry carries the BSSID and the status only. -/
def bare_scan_reply : List Nat :=
  attr_bytes NL80211_ATTR_BSS
    (attr_bytes NL80211_BSS_BSSID mac_aabb ++
     attr_bytes NL80211_BSS_STATUS (le32_bytes NL80211_BSS_STATUS_ASSOCIATED))

/-! ## Attribute streams as sequences of records -/

/-- The bytes of a sequence of attribute records `(type field, payload)`. -/
def attrs_bytes : List (Nat × List Nat) → List Nat
  | [] => []
  | r :: rs => attr_bytes r.1 r.2 ++ attrs_bytes rs

/-- The code of a record: its type field without the two flag bits. -/
def attr_code (r : Nat × List Nat) : Nat := r.1 % 16384

/-- A valid attribute stream for a decode with bound `maxtype` and policy
`policy`: every type field and every length fits its 16 bits, and every record
whose code is within the bound has the minimum length the policy asks for. -/
def attrs_valid (maxtype : Nat) (policy : Option nla_policy)
    (recs : List (Nat × List Nat)) : Prop :=
  ∀ r ∈ recs, r.1 < 65536 ∧ r.2.length + NLA_HDRLEN < 65536 ∧
    ∀ p, policy = some p → attr_code r ≤ maxtype → nla_attr_minlen (p (attr_code r)) ≤ r.2.length

instance attrs_valid_decidable (maxtype : Nat) (policy : Option nla_policy)
    (recs : List (Nat × List Nat)) : Decidable (attrs_valid maxtype policy recs) :=
  match policy with
  | none => decidable_of_iff (∀ r ∈ recs, r.1 < 65536 ∧ r.2.length + NLA_HDRLEN < 65536)
      ⟨fun h r hr => ⟨(h r hr).1, (h r hr).2, fun _ hp => by cases hp⟩,
       fun h r hr => ⟨(h r hr).1, (h r hr).2.1⟩⟩
  | some q => decidable_of_iff (∀ r ∈ recs, r.1 < 65536 ∧ r.2.length + NLA_HDRLEN < 65536 ∧
        (attr_code r ≤ maxtype → nla_attr_minlen (q (attr_code r)) ≤ r.2.length))
      ⟨fun h r hr => ⟨(h r hr).1, (h r hr).2.1, fun p hp => by cases hp; exact (h r hr).2.2⟩,
       fun h r hr => ⟨(h r hr).1, (h r hr).2.1, (h r hr).2.2 q rfl⟩⟩

/-- The table that results from a sequence of records, record by record: a
record whose code is within the bound replaces the entry of its code.  `pos`
is the offset of the first record in the buffer. -/
def decode_ref (maxtype : Nat) : List (Nat × List Nat) → Nat → attr_table → attr_table
  | [], _, tb => tb
  | r :: rs, pos, tb =>
    decode_ref maxtype rs (pos + NLA_ALIGN (r.2.length + NLA_HDRLEN))
      (if maxtype < attr_code r then tb
       else fun c => if c = attr_code r then some ⟨pos + NLA_HDRLEN, r.2.length⟩ else tb c)

/-! # Theorems -/

/-! ## Lemmas: signal quality -/

/-- A value in the range of `int32_t` is unchanged by the conversion. -/
theorem to_int32_of_range (n : Int) (h1 : -2147483648 ≤ n) (h2 : n < 2147483648) :
    to_int32 n = n := by
  unfold to_int32
  simp only
  split <;> omega

/-- The float expression at every clamped value: one less than `120 + x` at
`x = -56`, equal to it everywhere else. -/
theorem xbm_float_values (x : Int) (h1 : -90 ≤ x) (h2 : x ≤ -20) :
    f32_to_uint32
      (f32_sub (f32_of_int 100)
        (f32_mul (f32_of_int 70)
          (f32_div (f32_sub (f32_of_int SIGNAL_MAX_DBM) (f32_of_int x))
            (f32_sub (f32_of_int SIGNAL_MAX_DBM) (f32_of_int NOISE_FLOOR_DBM)))))
      = if x = -56 then 63 else (120 + x).toNat := by
  interval_cases x <;> rfl

/-- C division by 100 in terms of the floor division. -/
theorem tdiv_100 (m : Int) :
    (0 ≤ m ∧ Int.tdiv m 100 = m / 100) ∨ (m < 0 ∧ Int.tdiv m 100 = -((-m) / 100)) := by
  by_cases h : 0 ≤ m
  · left
    exact ⟨h, Int.tdiv_eq_ediv h (by decide)⟩
  · right
    refine ⟨by omega, ?_⟩
    have h1 : m = -(-m) := by omega
    have h2 : Int.tdiv (-m) 100 = (-m) / 100 := Int.tdiv_eq_ediv (by omega) (by decide)
    rw [← h2, ← Int.neg_tdiv, ← h1]

/-- The value of `nl80211_xbm_to_percent(m, 100)` for every `int32_t` input. -/
theorem xbm_to_percent_eq (m : Int) (h1 : -2147483648 ≤ m) (h2 : m < 2147483648) :
    nl80211_xbm_to_percent m 100 =
      if clamp_dbm (Int.tdiv m 100) = -56 then 63
      else (120 + clamp_dbm (Int.tdiv m 100)).toNat := by
  have hr : to_int32 (Int.tdiv m 100) = Int.tdiv m 100 := by
    apply to_int32_of_range <;> rcases tdiv_100 m with ⟨_, h⟩ | ⟨_, h⟩ <;> omega
  have hb : -90 ≤ clamp_dbm (Int.tdiv m 100) ∧ clamp_dbm (Int.tdiv m 100) ≤ -20 := by
    unfold clamp_dbm
    split_ifs <;> omega
  have hc : (if (if Int.tdiv m 100 < NOISE_FLOOR_DBM then NOISE_FLOOR_DBM else Int.tdiv m 100)
        > SIGNAL_MAX_DBM then SIGNAL_MAX_DBM
      else (if Int.tdiv m 100 < NOISE_FLOOR_DBM then NOISE_FLOOR_DBM else Int.tdiv m 100))
      = clamp_dbm (Int.tdiv m 100) := by
    unfold clamp_dbm NOISE_FLOOR_DBM SIGNAL_MAX_DBM
    split_ifs <;> omega
  unfold nl80211_xbm_to_percent
  simp only [hr, hc]
  exact xbm_float_values _ hb.1 hb.2

/-! ## Lemmas: attribute decode -/

/-- The walk keeps every entry of the table inside the buffer and in line with
the policy. -/
theorem nla_parse_loop_ok (maxtype : Nat) (policy : Option nla_policy) (buf : List Nat) :
    ∀ (fuel pos : Nat) (tb tb1 : attr_table),
      (∀ c a, tb c = some a → attr_ok policy buf c a) →
      nla_parse_loop maxtype policy buf fuel pos tb = some tb1 →
      ∀ c a, tb1 c = some a → attr_ok policy buf c a := by
  intro fuel
  induction fuel with
  | zero =>
    intro pos tb tb1 htb h
    simp only [nla_parse_loop] at h
    split_ifs at h
    cases h
    exact htb
  | succ fuel ih =>
    intro pos tb tb1 htb h
    simp only [nla_parse_loop] at h
    split_ifs at h with h0 h3 h4 h5 h6
    · cases h
      exact htb
    · exact ih _ _ _ htb h
    · refine ih _ _ _ ?_ h
      intro c a hca
      by_cases hc : c = get_le16 buf (pos + 2) % 16384
      · rw [if_pos hc] at hca
        cases hca
        refine ⟨?_, ?_⟩
        · simp only [NLA_HDRLEN] at h4 ⊢
          omega
        · intro p hp
          subst hp
          subst hc
          simpa using h6
      · rw [if_neg hc] at hca
        exact htb c a hca

/-- Every entry of a successful decode lies inside the buffer and respects the
policy. -/
theorem nla_parse_ok (maxtype : Nat) (buf : List Nat) (policy : Option nla_policy)
    (tb : attr_table) (h : nla_parse maxtype buf policy = some tb) (c : Nat) (a : nlattr)
    (hc : tb c = some a) : attr_ok policy buf c a :=
  nla_parse_loop_ok maxtype policy buf _ _ _ _ (by intro c a h; cases h) h c a hc

/-- A span inside the buffer has all of its bytes. -/
theorem nla_data_length (buf : List Nat) (a : nlattr) (h : a.off + a.len ≤ buf.length) :
    (nla_data buf a).length = a.len := by
  simp only [nla_data, List.length_take, List.length_drop]
  omega

/-- A span of at least two bytes is readable as a 16-bit value. -/
theorem nla_get_u16_some (buf : List Nat) (a : nlattr) (h : a.off + a.len ≤ buf.length)
    (h2 : 2 ≤ a.len) : ∃ v, nla_get_u16 buf a = some v := by
  have hl := nla_data_length buf a h
  unfold nla_get_u16
  match hd : nla_data buf a with
  | [] => rw [hd] at hl; simp at hl; omega
  | [_] => rw [hd] at hl; simp at hl; omega
  | b0 :: b1 :: _ => exact ⟨_, rfl⟩

/-- A span of at least one byte is readable as an 8-bit value. -/
theorem nla_get_u8_some (buf : List Nat) (a : nlattr) (h : a.off + a.len ≤ buf.length)
    (h2 : 1 ≤ a.len) : ∃ v, nla_get_u8 buf a = some v := by
  have hl := nla_data_length buf a h
  unfold nla_get_u8
  match hd : nla_data buf a with
  | [] => rw [hd] at hl; simp at hl; omega
  | b0 :: _ => exact ⟨_, rfl⟩

/-- A span of at least four bytes is readable as a 32-bit value. -/
theorem nla_get_u32_some (buf : List Nat) (a : nlattr) (h : a.off + a.len ≤ buf.length)
    (h2 : 4 ≤ a.len) : ∃ v, nla_get_u32 buf a = some v := by
  have hl := nla_data_length buf a h
  unfold nla_get_u32
  match hd : nla_data buf a with
  | [] => rw [hd] at hl; simp at hl; omega
  | [_] => rw [hd] at hl; simp at hl; omega
  | [_, _] => rw [hd] at hl; simp at hl; omega
  | [_, _, _] => rw [hd] at hl; simp at hl; omega
  | b0 :: b1 :: b2 :: b3 :: _ => exact ⟨_, rfl⟩

/-! ## Lemmas: `find_ssid` -/

/-- More fuel than the buffer is long changes nothing: the loop never runs out
of fuel in `find_ssid`. -/
theorem find_ssid_loop_fuel (ies : List Nat) :
    ∀ (fuel p l k : Nat), ies.length ≤ p + fuel →
      find_ssid_loop ies (fuel + 1 + k) p l = find_ssid_loop ies (fuel + 1) p l := by
  intro fuel
  induction fuel with
  | zero =>
    intro p l k hp
    have hk : 0 + 1 + k = k + 1 := by omega
    have hnone : ies[p]? = none := List.getElem?_eq_none (by omega)
    rw [hk]
    simp only [find_ssid_loop, hnone]
  | succ fuel ih =>
    intro p l k hp
    have hk : fuel + 1 + 1 + k = (fuel + 1 + k) + 1 := by omega
    rw [hk]
    simp only [find_ssid_loop]
    split
    · split
      · rfl
      · split
        · split
          · rfl
          · exact ih _ _ _ (by omega)
        · rfl
    · rfl

/-- Past the end of the buffer the loop reads outside it. -/
theorem find_ssid_loop_past_end (ies : List Nat) (fuel p l : Nat) (hp : ies.length ≤ p)
    (hl : 2 < l) : find_ssid_loop ies fuel p l = none := by
  cases fuel with
  | zero => rfl
  | succ fuel =>
    have hnone : ies[p]? = none := List.getElem?_eq_none hp
    simp only [find_ssid_loop, hl, hnone, if_true]

/-- While the loop reads inside the buffer, the counter `ies_len` is the
number of bytes from the pointer to the end of the buffer. -/
theorem find_ssid_loop_inv (ies : List Nat) (hb : is_bytes ies)
    (hlen : ies.length < 4294967296) :
    ∀ (fuel p l p1 l1 : Nat), p ≤ ies.length → l = ies.length - p →
      find_ssid_loop ies fuel p l = some (p1, l1) →
      p1 ≤ ies.length ∧ l1 = ies.length - p1 := by
  intro fuel
  induction fuel with
  | zero =>
    intro p l p1 l1 _ _ h
    simp [find_ssid_loop] at h
  | succ fuel ih =>
    intro p l p1 l1 hp hl h
    simp only [find_ssid_loop] at h
    split at h
    · split at h
      · cases h
      · split at h
        · split at h
          · cases h
          · rename_i b hb1
            have hlt : p + 1 < ies.length := by
              rcases List.getElem?_eq_some_iff.mp hb1 with ⟨hlt, _⟩
              exact hlt
            have hb256 : b < 256 := by
              rcases List.getElem?_eq_some_iff.mp hb1 with ⟨hlt, hv⟩
              exact hb b (hv ▸ List.getElem_mem hlt)
            by_cases hin : p + (b + 2) ≤ ies.length
            · exact ih _ _ _ _ hin (by omega) h
            · rw [find_ssid_loop_past_end ies fuel _ _ (by omega) (by omega)] at h
              cases h
        · cases h
          exact ⟨hp, hl⟩
    · cases h
      exact ⟨hp, hl⟩

/-- A pointer that `find_ssid` returns, together with the length it returns,
stays inside the buffer. -/
theorem find_ssid_in_bounds (ies : List Nat) (hb : is_bytes ies)
    (hlen : ies.length < 4294967296) (off n : Nat)
    (h : find_ssid ies ies.length = some (some off, n)) : off + n ≤ ies.length := by
  unfold find_ssid find_ssid_at at h
  split at h
  · cases h
  · rename_i p l hloop
    unfold find_ssid_exit at h
    have hinv := find_ssid_loop_inv ies hb hlen _ _ _ _ _ (Nat.zero_le _) (by omega) hloop
    split at h
    · cases h
    · split at h
      · cases h
      · rename_i b hb1
        have hb256 : b < 256 := by
          rcases List.getElem?_eq_some_iff.mp hb1 with ⟨hlt, hv⟩
          exact hb b (hv ▸ List.getElem_mem hlt)
        split at h
        · cases h
        · cases h
          omega

/-- Only the empty sequence of elements has no bytes. -/
theorem ies_bytes_eq_nil (es : List (Nat × List Nat)) (h : ies_bytes es = []) : es = [] := by
  cases es with
  | nil => rfl
  | cons e es => simp [ies_bytes, ie_bytes] at h

/-- The byte right after a prefix. -/
theorem getElem_opt_append_head (pre : List Nat) (a : Nat) (t : List Nat) :
    (pre ++ a :: t)[pre.length]? = some a := by
  rw [List.getElem?_append_right (Nat.le_refl _)]
  simp

/-- The second byte after a prefix. -/
theorem getElem_opt_append_second (pre : List Nat) (a b : Nat) (t : List Nat) :
    (pre ++ a :: b :: t)[pre.length + 1]? = some b := by
  rw [List.getElem?_append_right (by omega)]
  simp

/-- The loop and the tests after it on a sequence of complete elements that
follows an arbitrary prefix. -/
theorem find_ssid_elems (els : List (Nat × List Nat)) :
    ∀ (pre : List Nat) (fuel : Nat), ies_wf els →
      (pre ++ ies_bytes els).length < 4294967296 → (ies_bytes els).length < fuel →
      ∃ p l, find_ssid_loop (pre ++ ies_bytes els) fuel pre.length (ies_bytes els).length
          = some (p, l) ∧
        match els.find? (fun e => decide (e.1 = 0)) with
        | some e => ∃ off,
            find_ssid_exit (pre ++ ies_bytes els) p l = some (some off, e.2.length) ∧
            ((pre ++ ies_bytes els).drop off).take e.2.length = e.2
        | none => ∃ q, find_ssid_exit (pre ++ ies_bytes els) p l = some (q, 0) := by
  induction els with
  | nil =>
    intro pre fuel _ _ hf
    obtain ⟨f, rfl⟩ : ∃ f, fuel = f + 1 := ⟨fuel - 1, by omega⟩
    refine ⟨pre.length, 0, ?_, ?_⟩
    · simp [find_ssid_loop, ies_bytes]
    · simp [find_ssid_exit]
  | cons e es ih =>
    intro pre fuel hwf hlen hf
    obtain ⟨id, pl⟩ := e
    have hpl : pl.length ≤ 255 := hwf (id, pl) (List.mem_cons_self _ _)
    have hwf1 : ies_wf es := fun e he => hwf e (List.mem_cons_of_mem _ he)
    have hB : pre ++ ies_bytes ((id, pl) :: es) = pre ++ id :: pl.length :: (pl ++ ies_bytes es) := by
      simp [ies_bytes, ie_bytes]
    have hL : (ies_bytes ((id, pl) :: es)).length = pl.length + 2 + (ies_bytes es).length := by
      simp [ies_bytes, ie_bytes]
      omega
    have hlen1 : pre.length + (pl.length + 2 + (ies_bytes es).length) < 4294967296 := by
      rw [List.length_append, hL] at hlen
      exact hlen
    rw [hL] at hf
    rw [hB, hL]
    have h0 := getElem_opt_append_head pre id (pl.length :: (pl ++ ies_bytes es))
    have h1 := getElem_opt_append_second pre id pl.length (pl ++ ies_bytes es)
    obtain ⟨f, rfl⟩ : ∃ f, fuel = f + 1 := ⟨fuel - 1, by omega⟩
    by_cases hid : id = 0
    · subst hid
      refine ⟨pre.length, pl.length + 2 + (ies_bytes es).length, ?_, ?_⟩
      · simp only [find_ssid_loop, h0, WLAN_EID_SSID]
        split <;> simp
      · simp only [List.find?, decide_True]
        refine ⟨pre.length + 2, ?_, ?_⟩
        · simp only [find_ssid_exit, h1]
          rw [if_neg (by omega), if_neg (by omega)]
        · have hd : List.drop (pre.length + 2) (pre ++ 0 :: pl.length :: (pl ++ ies_bytes es))
              = pl ++ ies_bytes es := by
            rw [List.drop_append]
            rfl
          rw [hd]
          simp
    · have hfind : List.find? (fun e => decide (e.1 = 0)) ((id, pl) :: es)
          = List.find? (fun e => decide (e.1 = 0)) es := by
        simp [List.find?, hid]
      rw [hfind]
      by_cases h2 : 2 < pl.length + 2 + (ies_bytes es).length
      · have hpre : pre ++ id :: pl.length :: (pl ++ ies_bytes es)
            = (pre ++ ie_bytes (id, pl)) ++ ies_bytes es := by
          simp [ie_bytes]
        have hplen : (pre ++ ie_bytes (id, pl)).length = pre.length + (pl.length + 2) := by
          simp [ie_bytes]
        have hl1 : (pl.length + 2 + (ies_bytes es).length + 4294967296 - (pl.length + 2))
            % 4294967296 = (ies_bytes es).length := by omega
        have hstep : find_ssid_loop (pre ++ id :: pl.length :: (pl ++ ies_bytes es)) (f + 1)
            pre.length (pl.length + 2 + (ies_bytes es).length)
            = find_ssid_loop ((pre ++ ie_bytes (id, pl)) ++ ies_bytes es) f
              (pre ++ ie_bytes (id, pl)).length (ies_bytes es).length := by
          simp only [find_ssid_loop, h0, h1, h2, if_true, WLAN_EID_SSID]
          rw [if_pos (by simpa using hid), hl1, hplen, hpre]
        rw [hstep, hpre]
        exact ih (pre ++ ie_bytes (id, pl)) f hwf1 (by rw [List.length_append, hplen]; omega)
          (by omega)
      · have hpl0 : pl = [] := List.eq_nil_of_length_eq_zero (by omega)
        have hes : es = [] := ies_bytes_eq_nil es (List.eq_nil_of_length_eq_zero (by omega))
        subst hpl0
        subst hes
        refine ⟨pre.length, 2, ?_, ?_⟩
        · simp [find_ssid_loop, ies_bytes]
        · refine ⟨some (pre.length + 2), ?_⟩
          simp only [List.length_nil] at h1
          simp only [find_ssid_exit, h1, List.length_nil]
          simp

/-! ## Lemmas: the callbacks -/

/-- In `env_of` every library call succeeds. -/
theorem env_ok_env_of (scan sta : List (List Nat)) : env_ok (env_of scan sta) := by
  simp [env_ok, env_of]

/-- The payload of an attribute of a byte buffer is a byte buffer. -/
theorem is_bytes_nla_data (buf : List Nat) (a : nlattr) (h : is_bytes buf) :
    is_bytes (nla_data buf a) := fun b hb =>
  h b (List.mem_of_mem_drop (List.mem_of_mem_take hb))

/-- A payload is not longer than the buffer it lies in. -/
theorem nla_data_length_le (buf : List Nat) (a : nlattr) :
    (nla_data buf a).length ≤ buf.length := by
  simp only [nla_data, List.length_take, List.length_drop]
  omega

/-- The record after `gwi_sta_cb` differs from the record before in `bitrate`
at most, and the callback reads no byte outside an attribute. -/
theorem gwi_sta_cb_frame (msg : List Nat) (info : wireless_info_t) :
    ∃ r, gwi_sta_cb msg info = some r ∧ r = { info with bitrate := r.bitrate } := by
  rcases hp : nla_parse NL80211_ATTR_MAX msg none with _ | tb
  · exact ⟨info, by simp only [gwi_sta_cb, hp], rfl⟩
  rcases hs : tb NL80211_ATTR_STA_INFO with _ | sta
  · exact ⟨info, by simp only [gwi_sta_cb, hp, hs], rfl⟩
  rcases hn : nla_parse_nested NL80211_STA_INFO_MAX msg sta (some stats_policy) with _ | sinfo
  · exact ⟨info, by simp only [gwi_sta_cb, hp, hs, hn], rfl⟩
  rcases hx : sinfo NL80211_STA_INFO_RX_BITRATE with _ | rx
  · exact ⟨info, by simp only [gwi_sta_cb, hp, hs, hn, hx], rfl⟩
  rcases hr : nla_parse_nested NL80211_RATE_INFO_MAX (nla_data msg sta) rx (some rate_policy)
    with _ | rinfo
  · exact ⟨info, by simp only [gwi_sta_cb, hp, hs, hn, hx, hr], rfl⟩
  rcases hb : rinfo NL80211_RATE_INFO_BITRATE with _ | br
  · exact ⟨info, by simp only [gwi_sta_cb, hp, hs, hn, hx, hr, hb], rfl⟩
  have hok := nla_parse_ok _ _ _ _ hr _ _ hb
  obtain ⟨v, hv⟩ := nla_get_u16_some _ br hok.1 (hok.2 rate_policy rfl)
  refine ⟨{ info with bitrate := to_int32 (to_int32 ((v : Int) * 100) * 1000) }, ?_, ?_⟩
  · simp only [gwi_sta_cb, hp, hs, hn, hx, hr, hb, hv]
  · generalize to_int32 (to_int32 ((v : Int) * 100) * 1000) = x
    rfl

/-- The policy of `gwi_scan_cb` makes an `NLA_U32` attribute (status,
frequency, signal) at least four bytes long, hence readable. -/
theorem bss_u32_readable (msg : List Nat) (nbss : nlattr) (bss : attr_table)
    (hn : nla_parse_nested NL80211_BSS_MAX msg nbss (some bss_policy) = some bss)
    (c : Nat) (hc : bss_policy c = .NLA_U32) (a : nlattr) (ha : bss c = some a) :
    ∃ v, nla_get_u32 (nla_data msg nbss) a = some v := by
  have hok := nla_parse_ok _ _ _ _ hn _ _ ha
  have h4 := hok.2 bss_policy rfl
  rw [hc] at h4
  exact nla_get_u32_some _ a hok.1 h4

/-- The policy of `gwi_scan_cb` makes an `NLA_U8` attribute readable. -/
theorem bss_u8_readable (msg : List Nat) (nbss : nlattr) (bss : attr_table)
    (hn : nla_parse_nested NL80211_BSS_MAX msg nbss (some bss_policy) = some bss)
    (c : Nat) (hc : bss_policy c = .NLA_U8) (a : nlattr) (ha : bss c = some a) :
    ∃ v, nla_get_u8 (nla_data msg nbss) a = some v := by
  have hok := nla_parse_ok _ _ _ _ hn _ _ ha
  have h4 := hok.2 bss_policy rfl
  rw [hc] at h4
  exact nla_get_u8_some _ a hok.1 h4

/-! ## Lemmas: pointers into the message -/

/-- The payload of an attribute of a nested table, as bytes of the message. -/
theorem nla_data_nested (msg : List Nat) (nbss a : nlattr)
    (h : a.off + a.len ≤ (nla_data msg nbss).length) :
    nla_data (nla_data msg nbss) a = (msg.drop (nbss.off + a.off)).take a.len := by
  unfold nla_data at h ⊢
  rw [List.drop_take, List.drop_drop, List.take_take]
  rw [List.length_take, List.length_drop] at h
  congr 1
  omega

/-- A byte of a window of the message is the byte of the message at the same
place. -/
theorem getElem_opt_window (mem : List Nat) (base n i x : Nat)
    (h : ((mem.drop base).take n)[i]? = some x) : mem[base + i]? = some x := by
  rw [List.getElem?_take] at h
  split at h
  · rw [List.getElem?_drop] at h
    exact h
  · cases h

/-- Bytes of a window of the message are the bytes of the message at the same
place. -/
theorem take_drop_window (mem : List Nat) (base n off k : Nat)
    (h : off + k ≤ ((mem.drop base).take n).length) :
    (((mem.drop base).take n).drop off).take k = (mem.drop (base + off)).take k := by
  rw [List.drop_take, List.drop_drop, List.take_take]
  rw [List.length_take, List.length_drop] at h
  congr 1
  omega

/-- A loop of `find_ssid` that leaves the loop gives the same result with more
fuel. -/
theorem find_ssid_loop_mono (mem : List Nat) :
    ∀ (fuel k p l : Nat) (r : Nat × Nat), find_ssid_loop mem fuel p l = some r →
      find_ssid_loop mem (fuel + k) p l = some r := by
  intro fuel
  induction fuel with
  | zero =>
    intro k p l r h
    simp only [find_ssid_loop] at h
    cases h
  | succ fuel ih =>
    intro k p l r h
    have hk : fuel + 1 + k = (fuel + k) + 1 := by omega
    rw [hk]
    simp only [find_ssid_loop] at h ⊢
    split
    · rename_i hl
      rw [if_pos hl] at h
      split
      · rename_i h0
        rw [h0] at h
        cases h
      · rename_i id h0
        rw [h0] at h
        simp only at h
        split
        · rename_i hid
          rw [if_pos hid] at h
          split
          · rename_i h1
            rw [h1] at h
            cases h
          · rename_i len h1
            rw [h1] at h
            exact ih _ _ _ _ h
        · rename_i hid
          rw [if_neg hid] at h
          exact h
    · rename_i hl
      rw [if_neg hl] at h
      exact h

/-- A loop of `find_ssid` that stays inside a window of the message does in
the message what it does in the window. -/
theorem find_ssid_loop_window (mem : List Nat) (base n : Nat) :
    ∀ (fuel p l p1 l1 : Nat),
      find_ssid_loop ((mem.drop base).take n) fuel p l = some (p1, l1) →
      find_ssid_loop mem fuel (base + p) l = some (base + p1, l1) := by
  intro fuel
  induction fuel with
  | zero =>
    intro p l p1 l1 h
    simp only [find_ssid_loop] at h
    cases h
  | succ fuel ih =>
    intro p l p1 l1 h
    simp only [find_ssid_loop] at h ⊢
    by_cases hl : 2 < l
    · rw [if_pos hl] at h ⊢
      rcases h0 : ((mem.drop base).take n)[p]? with _ | id
      · rw [h0] at h
        cases h
      · rw [h0] at h
        rw [getElem_opt_window mem base n p id h0]
        simp only at h ⊢
        by_cases hid : id ≠ WLAN_EID_SSID
        · rw [if_pos hid] at h ⊢
          rcases h1 : ((mem.drop base).take n)[p + 1]? with _ | len
          · rw [h1] at h
            cases h
          · rw [h1] at h
            have h1m := getElem_opt_window mem base n (p + 1) len h1
            rw [← Nat.add_assoc] at h1m
            rw [h1m]
            simp only at h ⊢
            have := ih _ _ _ _ h
            rw [← Nat.add_assoc] at this
            exact this
        · rw [if_neg hid] at h ⊢
          cases h
          rfl
    · rw [if_neg hl] at h ⊢
      cases h
      rfl

/-- The tests after the loop, inside a window of the message. -/
theorem find_ssid_exit_window (mem : List Nat) (base n p l : Nat) (q : Option Nat) (k : Nat)
    (h : find_ssid_exit ((mem.drop base).take n) p l = some (q, k)) :
    find_ssid_exit mem (base + p) l = some (q.map (fun off => base + off), k) := by
  unfold find_ssid_exit at h ⊢
  by_cases hl : l < 2
  · rw [if_pos hl] at h ⊢
    cases h
    rfl
  · rw [if_neg hl] at h ⊢
    rcases h1 : ((mem.drop base).take n)[p + 1]? with _ | len
    · rw [h1] at h
      cases h
    · rw [h1] at h
      have h1m := getElem_opt_window mem base n (p + 1) len h1
      rw [← Nat.add_assoc] at h1m
      rw [h1m]
      simp only at h ⊢
      by_cases hc : l < (2 + len) % 4294967296
      · rw [if_pos hc] at h ⊢
        cases h
        rfl
      · rw [if_neg hc] at h ⊢
        cases h
        simp only [Option.map_some', Nat.add_assoc]

/-- When `find_ssid` stays inside the payload of the information elements, it
returns in the message what it returns on the payload taken alone, the pointer
moved by the offset of the payload. -/
theorem find_ssid_at_window (mem : List Nat) (base n ies_len : Nat) (q : Option Nat) (k : Nat)
    (h : find_ssid ((mem.drop base).take n) ies_len = some (q, k)) :
    find_ssid_at mem base ies_len = some (q.map (fun off => base + off), k) := by
  unfold find_ssid find_ssid_at at h
  unfold find_ssid_at
  rcases hloop : find_ssid_loop ((mem.drop base).take n)
      (((mem.drop base).take n).length + 1) 0 ies_len with _ | ⟨p, l⟩
  · rw [hloop] at h
    cases h
  · rw [hloop] at h
    simp only at h
    have hw := find_ssid_loop_window mem base n _ _ _ _ _ hloop
    have hle : ((mem.drop base).take n).length ≤ mem.length := by
      rw [List.length_take, List.length_drop]
      omega
    have hm := find_ssid_loop_mono mem _ (mem.length - ((mem.drop base).take n).length) _ _ _ hw
    have hfu : ((mem.drop base).take n).length + 1
        + (mem.length - ((mem.drop base).take n).length) = mem.length + 1 := by omega
    rw [hfu] at hm
    have hm1 : find_ssid_loop mem (mem.length + 1) base ies_len = some (base + p, l) := hm
    rw [hm1]
    exact find_ssid_exit_window mem base n p l q k h

/-! ## Lemmas: the scan callback -/

/-- The callback returns the record of `gwi_scan_cb_run` when the flag is
clear. -/
theorem gwi_scan_cb_of_run (msg : List Nat) (info r : wireless_info_t)
    (h : gwi_scan_cb_run msg info = (r, false)) : gwi_scan_cb msg info = some r := by
  simp only [gwi_scan_cb, h]

/-- When the callback returns, its record is the one of `gwi_scan_cb_run` and
the flag is clear. -/
theorem gwi_scan_cb_run_of_some (msg : List Nat) (info r : wireless_info_t)
    (h : gwi_scan_cb msg info = some r) : gwi_scan_cb_run msg info = (r, false) := by
  unfold gwi_scan_cb at h
  split at h
  · rename_i r1 heq
    cases h
    exact heq
  · cases h

/-- A reply whose entry does not carry an accepted status leaves the record as
it was. -/
theorem gwi_scan_cb_skip_status (msg : List Nat) (info : wireless_info_t)
    (h1 : scan_entry_status msg ≠ some NL80211_BSS_STATUS_ASSOCIATED)
    (h2 : scan_entry_status msg ≠ some NL80211_BSS_STATUS_IBSS_JOINED) :
    gwi_scan_cb msg info = some info := by
  apply gwi_scan_cb_of_run
  rcases hp : nla_parse NL80211_ATTR_MAX msg none with _ | tb
  · simp only [gwi_scan_cb_run, hp]
  rcases hs : tb NL80211_ATTR_BSS with _ | nbss
  · simp only [gwi_scan_cb_run, hp, hs]
  rcases hn : nla_parse_nested NL80211_BSS_MAX msg nbss (some bss_policy) with _ | bss
  · simp only [gwi_scan_cb_run, hp, hs, hn]
  rcases hst : bss NL80211_BSS_STATUS with _ | st
  · simp only [gwi_scan_cb_run, hp, hs, hn, hst]
  obtain ⟨v, hv⟩ := bss_u32_readable msg nbss bss hn NL80211_BSS_STATUS rfl st hst
  simp only [scan_entry_status, hp, hs, hn, hst, hv] at h1 h2
  simp only [gwi_scan_cb_run, hp, hs, hn, hst, hv]
  rw [if_pos]
  exact ⟨fun h => h1 (by rw [h]), fun h => h2 (by rw [h])⟩

/-- A reply that carries one of the reasons to skip leaves the record as it
was. -/
theorem gwi_scan_cb_skip (msg : List Nat) (info : wireless_info_t)
    (h : scan_skip_reason msg) : gwi_scan_cb msg info = some info := by
  apply gwi_scan_cb_of_run
  rcases h with h | ⟨tb, h1, h2⟩ | ⟨tb, nbss, h1, h2, h3⟩ | ⟨tb, nbss, bss, h1, h2, h3, h4⟩ |
    ⟨tb, nbss, bss, st, status, h1, h2, h3, h4, h5, h6, h7⟩ | ⟨tb, nbss, bss, h1, h2, h3, h4⟩
  · simp only [gwi_scan_cb_run, h]
  · simp only [gwi_scan_cb_run, h1, h2]
  · simp only [gwi_scan_cb_run, h1, h2, h3]
  · simp only [gwi_scan_cb_run, h1, h2, h3, h4]
  · simp only [gwi_scan_cb_run, h1, h2, h3, h4, h5]
    rw [if_pos ⟨h6, h7⟩]
  · rcases hst : bss NL80211_BSS_STATUS with _ | st
    · simp only [gwi_scan_cb_run, h1, h2, h3, hst]
    · obtain ⟨v, hv⟩ := bss_u32_readable msg nbss bss h3 NL80211_BSS_STATUS rfl st hst
      simp only [gwi_scan_cb_run, h1, h2, h3, hst, hv, h4]
      split <;> rfl

/-- The frequency block reads inside its attribute and changes `frequency`
only. -/
theorem scan_frequency_some (msg : List Nat) (nbss : nlattr) (bss : attr_table)
    (hn : nla_parse_nested NL80211_BSS_MAX msg nbss (some bss_policy) = some bss)
    (info : wireless_info_t) :
    ∃ r, scan_frequency (nla_data msg nbss) bss info = some r ∧
      r = { info with frequency := r.frequency } := by
  unfold scan_frequency
  split
  · exact ⟨info, rfl, rfl⟩
  · rename_i a ha
    obtain ⟨v, hv⟩ := bss_u32_readable msg nbss bss hn NL80211_BSS_FREQUENCY rfl a ha
    rw [hv]
    exact ⟨_, rfl, rfl⟩

/-- The SIGNAL_UNSPEC block reads inside its attribute and changes
`signal_level` and `quality` only. -/
theorem scan_signal_unspec_some (msg : List Nat) (nbss : nlattr) (bss : attr_table)
    (hn : nla_parse_nested NL80211_BSS_MAX msg nbss (some bss_policy) = some bss)
    (info : wireless_info_t) :
    ∃ r, scan_signal_unspec (nla_data msg nbss) bss info = some r ∧
      r = { info with signal_level := r.signal_level, quality := r.quality } := by
  unfold scan_signal_unspec
  split
  · exact ⟨info, rfl, rfl⟩
  · rename_i a ha
    obtain ⟨v, hv⟩ := bss_u8_readable msg nbss bss hn NL80211_BSS_SIGNAL_UNSPEC rfl a ha
    rw [hv]
    exact ⟨_, rfl, rfl⟩

/-- The SIGNAL_MBM block reads inside its attribute and changes `signal_level`
and `quality` only. -/
theorem scan_signal_mbm_some (msg : List Nat) (nbss : nlattr) (bss : attr_table)
    (hn : nla_parse_nested NL80211_BSS_MAX msg nbss (some bss_policy) = some bss)
    (info : wireless_info_t) :
    ∃ r, scan_signal_mbm (nla_data msg nbss) bss info = some r ∧
      r = { info with signal_level := r.signal_level, quality := r.quality } := by
  unfold scan_signal_mbm
  split
  · exact ⟨info, rfl, rfl⟩
  · rename_i a ha
    obtain ⟨v, hv⟩ := bss_u32_readable msg nbss bss hn NL80211_BSS_SIGNAL_MBM rfl a ha
    rw [hv]
    refine ⟨_, rfl, ?_⟩
    generalize to_int32 (nl80211_xbm_to_percent (to_int32 v) 100 : Nat) = q
    generalize Int.tdiv (to_int32 v) 100 = s
    rfl

/-- The information-element block changes `essid` only. -/
theorem scan_essid_frame (msg : List Nat) (nbss : nlattr) (bss : attr_table)
    (info r : wireless_info_t) (h : scan_essid msg nbss bss info = some r) :
    r = { info with essid := r.essid } := by
  unfold scan_essid at h
  split at h
  · cases h; rfl
  · split at h
    · cases h
    · cases h; rfl
    · split at h
      · split at h
        · cases h
        · cases h; rfl
      · cases h; rfl

/-- The four optional blocks on a decoded entry: the three scalar blocks read
inside their attributes, each changing its own fields only, and the record of
`gwi_scan_fill` is the one they leave apart from `essid`; the flag is set only
by the information-element block. -/
theorem gwi_scan_fill_blocks (msg : List Nat) (nbss : nlattr) (bss : attr_table)
    (hn : nla_parse_nested NL80211_BSS_MAX msg nbss (some bss_policy) = some bss)
    (info : wireless_info_t) :
    ∃ i1 i2 i3,
      scan_frequency (nla_data msg nbss) bss info = some i1 ∧
      scan_signal_unspec (nla_data msg nbss) bss i1 = some i2 ∧
      scan_signal_mbm (nla_data msg nbss) bss i2 = some i3 ∧
      i1 = { info with frequency := i1.frequency } ∧
      i2 = { i1 with signal_level := i2.signal_level, quality := i2.quality } ∧
      i3 = { i2 with signal_level := i3.signal_level, quality := i3.quality } ∧
      gwi_scan_fill msg nbss bss info
        = (match scan_essid msg nbss bss i3 with
          | none => (i3, true)
          | some r => (r, false)) ∧
      (gwi_scan_fill msg nbss bss info).1
        = { i3 with essid := (gwi_scan_fill msg nbss bss info).1.essid } := by
  obtain ⟨i1, h1, e1⟩ := scan_frequency_some msg nbss bss hn info
  obtain ⟨i2, h2, e2⟩ := scan_signal_unspec_some msg nbss bss hn i1
  obtain ⟨i3, h3, e3⟩ := scan_signal_mbm_some msg nbss bss hn i2
  have hfill : gwi_scan_fill msg nbss bss info
      = (match scan_essid msg nbss bss i3 with
        | none => (i3, true)
        | some r => (r, false)) := by
    simp only [gwi_scan_fill, h1, h2, h3]
  refine ⟨i1, i2, i3, h1, h2, h3, e1, e2, e3, hfill, ?_⟩
  rw [hfill]
  rcases h4 : scan_essid msg nbss bss i3 with _ | r
  · rfl
  · exact scan_essid_frame msg nbss bss i3 r h4

/-- The scan callback never writes `bitrate`, `flags` or `noise_level`, also
in the record written up to a read outside the message. -/
theorem gwi_scan_cb_run_frame (msg : List Nat) (info : wireless_info_t) :
    (gwi_scan_cb_run msg info).1.bitrate = info.bitrate ∧
    (gwi_scan_cb_run msg info).1.flags = info.flags ∧
    (gwi_scan_cb_run msg info).1.noise_level = info.noise_level := by
  rcases hp : nla_parse NL80211_ATTR_MAX msg none with _ | tb
  · have e : gwi_scan_cb_run msg info = (info, false) := by
      simp only [gwi_scan_cb_run, hp]
    rw [e]
    exact ⟨rfl, rfl, rfl⟩
  rcases hs : tb NL80211_ATTR_BSS with _ | nbss
  · have e : gwi_scan_cb_run msg info = (info, false) := by
      simp only [gwi_scan_cb_run, hp, hs]
    rw [e]
    exact ⟨rfl, rfl, rfl⟩
  rcases hn : nla_parse_nested NL80211_BSS_MAX msg nbss (some bss_policy) with _ | bss
  · have e : gwi_scan_cb_run msg info = (info, false) := by
      simp only [gwi_scan_cb_run, hp, hs, hn]
    rw [e]
    exact ⟨rfl, rfl, rfl⟩
  rcases hst : bss NL80211_BSS_STATUS with _ | st
  · have e : gwi_scan_cb_run msg info = (info, false) := by
      simp only [gwi_scan_cb_run, hp, hs, hn, hst]
    rw [e]
    exact ⟨rfl, rfl, rfl⟩
  rcases hv : nla_get_u32 (nla_data msg nbss) st with _ | status
  · have e : gwi_scan_cb_run msg info = (info, true) := by
      simp only [gwi_scan_cb_run, hp, hs, hn, hst, hv]
    rw [e]
    exact ⟨rfl, rfl, rfl⟩
  by_cases hc : status ≠ NL80211_BSS_STATUS_ASSOCIATED ∧
      status ≠ NL80211_BSS_STATUS_IBSS_JOINED
  · have e : gwi_scan_cb_run msg info = (info, false) := by
      simp only [gwi_scan_cb_run, hp, hs, hn, hst, hv]
      rw [if_pos hc]
    rw [e]
    exact ⟨rfl, rfl, rfl⟩
  rcases hb : bss NL80211_BSS_BSSID with _ | b
  · have e : gwi_scan_cb_run msg info = (info, false) := by
      simp only [gwi_scan_cb_run, hp, hs, hn, hst, hv, hb]
      rw [if_neg hc]
    rw [e]
    exact ⟨rfl, rfl, rfl⟩
  rcases hm : read_bytes (msg.drop (nbss.off + b.off)) ETH_ALEN with _ | mac
  · have e : gwi_scan_cb_run msg info = (info, true) := by
      simp only [gwi_scan_cb_run, hp, hs, hn, hst, hv, hb, hm]
      rw [if_neg hc]
    rw [e]
    exact ⟨rfl, rfl, rfl⟩
  have e : gwi_scan_cb_run msg info
      = gwi_scan_fill msg nbss bss { info with bssid := mac } := by
    simp only [gwi_scan_cb_run, hp, hs, hn, hst, hv, hb, hm]
    rw [if_neg hc]
  obtain ⟨i1, i2, i3, _, _, _, e1, e2, e3, _, e4⟩ :=
    gwi_scan_fill_blocks msg nbss bss hn { info with bssid := mac }
  rw [e, e4, e3, e2, e1]
  exact ⟨rfl, rfl, rfl⟩

/-- The scan callback never writes `bitrate`, `flags` or `noise_level`. -/
theorem gwi_scan_cb_frame (msg : List Nat) (info r : wireless_info_t)
    (h : gwi_scan_cb msg info = some r) :
    r.bitrate = info.bitrate ∧ r.flags = info.flags ∧ r.noise_level = info.noise_level := by
  have hr := gwi_scan_cb_run_of_some msg info r h
  have hf := gwi_scan_cb_run_frame msg info
  rw [hr] at hf
  exact hf

/-- The scan phase never writes `bitrate`, `flags` or `noise_level`. -/
theorem run_cb_scan_frame (msgs : List (List Nat)) :
    ∀ (info r : wireless_info_t), run_cb gwi_scan_cb msgs info = some r →
      r.bitrate = info.bitrate ∧ r.flags = info.flags ∧ r.noise_level = info.noise_level := by
  induction msgs with
  | nil =>
    intro info r h
    simp only [run_cb] at h
    cases h
    exact ⟨rfl, rfl, rfl⟩
  | cons m ms ih =>
    intro info r h
    simp only [run_cb] at h
    split at h
    · cases h
    · rename_i i1 h1
      have f1 := gwi_scan_cb_frame m info i1 h1
      have f2 := ih i1 r h
      exact ⟨f2.1.trans f1.1, f2.2.1.trans f1.2.1, f2.2.2.trans f1.2.2⟩

/-- A scan dump without an accepted entry leaves the record as it was. -/
theorem run_cb_scan_skip (msgs : List (List Nat)) (info : wireless_info_t)
    (h : ∀ m ∈ msgs, scan_entry_status m ≠ some NL80211_BSS_STATUS_ASSOCIATED ∧
      scan_entry_status m ≠ some NL80211_BSS_STATUS_IBSS_JOINED) :
    run_cb gwi_scan_cb msgs info = some info := by
  induction msgs with
  | nil => rfl
  | cons m ms ih =>
    have hm := h m (List.mem_cons_self _ _)
    simp only [run_cb, gwi_scan_cb_skip_status m info hm.1 hm.2]
    exact ih (fun m1 h1 => h m1 (List.mem_cons_of_mem _ h1))

/-- The station phase changes `bitrate` at most and reads no byte outside an
attribute. -/
theorem run_cb_sta_frame (msgs : List (List Nat)) :
    ∀ (info : wireless_info_t), ∃ r, run_cb gwi_sta_cb msgs info = some r ∧
      r = { info with bitrate := r.bitrate } := by
  induction msgs with
  | nil => intro info; exact ⟨info, rfl, rfl⟩
  | cons m ms ih =>
    intro info
    obtain ⟨i1, h1, e1⟩ := gwi_sta_cb_frame m info
    obtain ⟨r, h2, e2⟩ := ih i1
    refine ⟨r, ?_, ?_⟩
    · simp only [run_cb, h1, h2]
    · rw [e2, e1]

/-- A station reply with a missing link of the chain leaves the record as it
was. -/
theorem gwi_sta_cb_missing (msg : List Nat) (info : wireless_info_t)
    (h : sta_chain_missing msg) : gwi_sta_cb msg info = some info := by
  unfold gwi_sta_cb
  rcases h with h | ⟨tb, h1, h2⟩ | ⟨tb, sta, h1, h2, h3⟩ | ⟨tb, sta, sinfo, h1, h2, h3, h4⟩ |
    ⟨tb, sta, sinfo, rx, h1, h2, h3, h4, h5⟩ | ⟨tb, sta, sinfo, rx, rinfo, h1, h2, h3, h4, h5, h6⟩
  · simp only [h]
  · simp only [h1, h2]
  · simp only [h1, h2, h3]
  · simp only [h1, h2, h3, h4]
  · simp only [h1, h2, h3, h4, h5]
  · simp only [h1, h2, h3, h4, h5, h6]

/-- Station replies that all miss a link of the chain leave the record as it
was. -/
theorem run_cb_sta_missing (msgs : List (List Nat)) (info : wireless_info_t)
    (h : ∀ m ∈ msgs, sta_chain_missing m) : run_cb gwi_sta_cb msgs info = some info := by
  induction msgs with
  | nil => rfl
  | cons m ms ih =>
    simp only [run_cb, gwi_sta_cb_missing m info (h m (List.mem_cons_self _ _))]
    exact ih (fun m1 h1 => h m1 (List.mem_cons_of_mem _ h1))

/-- The lookup when every library call succeeds: both callbacks run over their
replies and the result is success. -/
theorem get_wireless_info_ok (env : nl_env) (prior : wireless_info_t) (hok : env_ok env)
    (i1 i2 : wireless_info_t)
    (h1 : run_cb gwi_scan_cb env.scan_replies wireless_info_zero = some i1)
    (h2 : run_cb gwi_sta_cb (env.sta_replies i1.bssid) i1 = some i2)
    (hb : i2.bssid = i1.bssid) :
    get_wireless_info env prior = some (1, i2) := by
  obtain ⟨a1, a2, a3, a4, a5, a6, a7, a8, a9, a10, a11⟩ := hok
  have a11b := a11 i1.bssid
  have b2 : ¬ env.modify_cb_scan < 0 := by omega
  have b3 : ¬ env.genl_ctrl_resolve < 0 := by omega
  have b7 : ¬ env.send_scan < 0 := by omega
  have b8 : ¬ env.modify_cb_sta < 0 := by omega
  have b11 : ¬ env.send_sta i1.bssid < 0 := by omega
  simp [get_wireless_info, a1, a4, a5, a6, a9, a10, h1, h2, hb, b2, b3, b7, b8, b11]

/-- More fuel than there are bytes left changes nothing: the walk of
`nla_parse` never runs out of fuel. -/
theorem nla_parse_loop_fuel (maxtype : Nat) (policy : Option nla_policy) (buf : List Nat) :
    ∀ (fuel k pos : Nat) (tb : attr_table), buf.length - pos ≤ fuel →
      nla_parse_loop maxtype policy buf (fuel + k) pos tb
        = nla_parse_loop maxtype policy buf fuel pos tb := by
  intro fuel
  induction fuel with
  | zero =>
    intro k pos tb h
    cases k with
    | zero => rfl
    | succ k =>
      have hk : 0 + (k + 1) = k + 1 := by omega
      rw [hk]
      simp only [nla_parse_loop]
      rw [if_pos (by omega), if_pos (by omega)]
  | succ fuel ih =>
    intro k pos tb h
    have hk : fuel + 1 + k = (fuel + k) + 1 := by omega
    rw [hk]
    simp only [nla_parse_loop]
    split_ifs with h0 h3 h4 h5 h6
    · rfl
    · rfl
    · rfl
    · apply ih
      simp only [NLA_HDRLEN, NLA_ALIGN] at h4 ⊢
      omega
    · apply ih
      simp only [NLA_HDRLEN, NLA_ALIGN] at h4 ⊢
      omega
    · rfl

/-- The value `gwi_sta_cb` stores when the chain STA_INFO, RX_BITRATE, BITRATE
is present and carries `r`: the product in `int`, which is `r * 100000` up to
`r = 21474`. -/
theorem gwi_sta_cb_bitrate (msg : List Nat) (info : wireless_info_t) (tb sinfo rinfo : attr_table)
    (sta rx br : nlattr) (r : Nat)
    (hp : nla_parse NL80211_ATTR_MAX msg none = some tb)
    (hs : tb NL80211_ATTR_STA_INFO = some sta)
    (hn : nla_parse_nested NL80211_STA_INFO_MAX msg sta (some stats_policy) = some sinfo)
    (hx : sinfo NL80211_STA_INFO_RX_BITRATE = some rx)
    (hr : nla_parse_nested NL80211_RATE_INFO_MAX (nla_data msg sta) rx (some rate_policy)
      = some rinfo)
    (hb : rinfo NL80211_RATE_INFO_BITRATE = some br)
    (hv : nla_get_u16 (nla_data (nla_data msg sta) rx) br = some r) :
    gwi_sta_cb msg info
        = some { info with bitrate := to_int32 (to_int32 ((r : Int) * 100) * 1000) } ∧
      (r ≤ 21474 → to_int32 (to_int32 ((r : Int) * 100) * 1000) = (r : Int) * 100000) := by
  refine ⟨by simp only [gwi_sta_cb, hp, hs, hn, hx, hr, hb, hv], ?_⟩
  intro hr1
  rw [to_int32_of_range ((r : Int) * 100) (by omega) (by omega),
    to_int32_of_range _ (by omega) (by omega)]
  omega

/-! ## Lemmas: the copy into `essid` -/

/-- A run of good elements followed by a bad one is what `takeWhile` keeps. -/
theorem takeWhile_append_stop (p : Nat → Bool) (w : List Nat) (a : Nat) (rest : List Nat)
    (hw : ∀ x ∈ w, p x = true) (ha : p a = false) :
    (w ++ a :: rest).takeWhile p = w := by
  induction w with
  | nil => simp [List.takeWhile, ha]
  | cons x xs ih =>
    have hx := hw x (List.mem_cons_self _ _)
    rw [List.cons_append, List.takeWhile_cons, hx, if_pos rfl,
      ih (fun y hy => hw y (List.mem_cons_of_mem _ hy))]

/-- Cutting to `k` elements and cutting at the first bad element commute. -/
theorem take_takeWhile_comm (p : Nat → Bool) (l : List Nat) :
    ∀ k, (l.takeWhile p).take k = (l.take k).takeWhile p := by
  induction l with
  | nil => intro k; simp
  | cons x xs ih =>
    intro k
    cases k with
    | zero => simp
    | succ k =>
      by_cases hx : p x = true
      · simp only [List.takeWhile, hx, List.take_succ_cons, ih k]
      · simp only [List.takeWhile, Bool.not_eq_true] at hx ⊢
        simp [List.takeWhile, hx]

/-- Every element that `takeWhile` keeps is good. -/
theorem takeWhile_all (p : Nat → Bool) (l : List Nat) : ∀ x ∈ l.takeWhile p, p x = true := by
  induction l with
  | nil => intro x hx; simp at hx
  | cons a as ih =>
    intro x hx
    by_cases ha : p a = true
    · simp only [List.takeWhile, ha, List.mem_cons] at hx
      rcases hx with rfl | hx
      · exact ha
      · exact ih x hx
    · simp only [Bool.not_eq_true] at ha
      simp [List.takeWhile, ha] at hx

/-- The string that `snprintf(essid, 33, "%.*s", n, src)` leaves in `essid`
when `src` has `n` readable bytes. -/
theorem snprintf_c_str (dst src : List Nat) (n : Nat) (h : n ≤ src.length) :
    ∃ e, snprintf_prec_s dst (IW_ESSID_MAX_SIZE + 1) n src = some e ∧
      c_str e = ((src.take n).take (min n 32)).takeWhile (· ≠ 0) ∧
      (c_str e).length ≤ 32 := by
  have hl : (src.take n).length = n := by
    rw [List.length_take]; omega
  have h32 : (src.take n).take (min n 32) = (src.take n).take 32 := by
    simp only [List.take_take]
    congr 1
    omega
  have hc : c_str (List.take 32 (List.takeWhile (fun x => decide (x ≠ 0)) (List.take n src))
      ++ [0] ++ List.drop
        ((List.take 32 (List.takeWhile (fun x => decide (x ≠ 0)) (List.take n src))).length + 1)
        dst)
      = List.take 32 (List.takeWhile (fun x => decide (x ≠ 0)) (List.take n src)) := by
    unfold c_str
    rw [List.append_assoc]
    apply takeWhile_append_stop
    · intro x hx
      exact takeWhile_all _ _ x (List.mem_of_mem_take hx)
    · simp
  refine ⟨List.take 32 (List.takeWhile (fun x => decide (x ≠ 0)) (List.take n src))
      ++ [0] ++ List.drop
        ((List.take 32 (List.takeWhile (fun x => decide (x ≠ 0)) (List.take n src))).length + 1)
        dst, ?_, ?_, ?_⟩
  · unfold snprintf_prec_s
    simp only [IW_ESSID_MAX_SIZE]
    rw [if_neg (by omega)]
  · rw [hc, h32, take_takeWhile_comm]
  · rw [hc, List.length_take]
    omega

/-! ## Lemmas: the BSSID and the SSID of an accepted entry -/

/-- The `memcpy` of a BSSID attribute of at least `ETH_ALEN` bytes reads
inside the attribute: it copies the first `ETH_ALEN` bytes of its payload. -/
theorem read_bssid_some (msg : List Nat) (nbss b : nlattr)
    (hok : b.off + b.len ≤ (nla_data msg nbss).length) (hb6 : ETH_ALEN ≤ nla_len b) :
    read_bytes (msg.drop (nbss.off + b.off)) ETH_ALEN
      = some ((nla_data (nla_data msg nbss) b).take ETH_ALEN) := by
  have hd := nla_data_nested msg nbss b hok
  have hl := nla_data_length (nla_data msg nbss) b hok
  rw [hd] at hl ⊢
  rw [List.length_take] at hl
  unfold nla_len at hb6
  unfold read_bytes
  rw [if_pos (by omega), List.take_take]
  congr 2
  omega

/-- When `find_ssid`, on the payload of the information elements taken alone,
finds an SSID element of length `n ≥ 1`, the information-element block stores
in `essid` the string made of the first min(n, 32) bytes of the SSID payload
cut before their first NUL byte. -/
theorem scan_essid_found (msg : List Nat) (nbss : nlattr) (bss : attr_table) (a : nlattr)
    (off n : Nat) (hbytes : is_bytes msg) (hlen : msg.length < 4294967296)
    (hok : a.off + a.len ≤ (nla_data msg nbss).length)
    (ha : bss NL80211_BSS_INFORMATION_ELEMENTS = some a)
    (hf : find_ssid (nla_data (nla_data msg nbss) a) (nla_len a) = some (some off, n))
    (hn1 : 1 ≤ n) (info : wireless_info_t) :
    ∃ e, scan_essid msg nbss bss info = some { info with essid := e } ∧
      c_str e
        = ((((nla_data (nla_data msg nbss) a).drop off).take n).take (min n 32)).takeWhile
            (· ≠ 0) ∧
      (c_str e).length ≤ 32 := by
  have hial : (nla_data (nla_data msg nbss) a).length = nla_len a :=
    nla_data_length _ _ hok
  have hfb : off + n ≤ (nla_data (nla_data msg nbss) a).length := by
    apply find_ssid_in_bounds _ (is_bytes_nla_data _ _ (is_bytes_nla_data _ _ hbytes))
    · have l1 := nla_data_length_le (nla_data msg nbss) a
      have l2 := nla_data_length_le msg nbss
      omega
    · rw [hial]
      exact hf
  have hd := nla_data_nested msg nbss a hok
  rw [hd] at hf hfb ⊢
  have hat := find_ssid_at_window msg (nbss.off + a.off) a.len (nla_len a) _ _ hf
  simp only [Option.map_some'] at hat
  have hwin := take_drop_window msg (nbss.off + a.off) a.len off n hfb
  have hsrc : n ≤ (msg.drop (nbss.off + a.off + off)).length := by
    rw [List.length_take, List.length_drop] at hfb
    rw [List.length_drop]
    omega
  obtain ⟨e, he, hc, hl⟩ := snprintf_c_str info.essid (msg.drop (nbss.off + a.off + off)) n hsrc
  refine ⟨e, ?_, ?_, hl⟩
  · simp only [scan_essid, ha, hat, he]
    rw [if_pos (by omega)]
  · rw [hc, hwin]

/-! ## The claims -/

/-- C1: end-to-end lookup.  When every library call succeeds, the scan dump is
the one reply `home_scan_reply` (status ASSOCIATED, BSSID aa:bb:cc:dd:ee:ff,
SIGNAL_MBM -5500, 2412 MHz, SSID "Home") and the station dump is one reply
with RX bitrate 720, `get_wireless_info` returns 1 and the record has essid
"Home", bssid aa:bb:cc:dd:ee:ff, frequency 2412000000, quality 65 and bitrate
72000000, whatever the record held before. -/
theorem c1_end_to_end (env : nl_env) (prior : wireless_info_t) (hok : env_ok env)
    (hscan : env.scan_replies = [home_scan_reply])
    (hsta : env.sta_replies mac_aabb = [sta_reply 720]) :
    ∃ r, get_wireless_info env prior = some (1, r) ∧ c_str r.essid = ssid_home ∧
      r.bssid = mac_aabb ∧ r.frequency = 2412000000 ∧ r.quality = 65 ∧
      r.bitrate = 72000000 := by
  have h1 : run_cb gwi_scan_cb env.scan_replies wireless_info_zero
      = some { home_info with bitrate := 0 } := by
    rw [hscan]
    decide
  have h2 : run_cb gwi_sta_cb (env.sta_replies ({ home_info with bitrate := 0 }).bssid)
      { home_info with bitrate := 0 } = some home_info := by
    have hb : ({ home_info with bitrate := 0 } : wireless_info_t).bssid = mac_aabb := rfl
    rw [hb, hsta]
    decide
  exact ⟨home_info, get_wireless_info_ok env prior hok _ _ h1 h2 rfl, by decide, rfl, rfl,
    rfl, rfl⟩

/-- The scenario of C1 in an environment where every call succeeds. -/
theorem c1_end_to_end_witness :
    ∃ r, get_wireless_info (env_of [home_scan_reply] [sta_reply 720]) wireless_info_zero
        = some (1, r) ∧ c_str r.essid = ssid_home ∧
      r.bssid = mac_aabb ∧ r.frequency = 2412000000 ∧ r.quality = 65 ∧
      r.bitrate = 72000000 :=
  c1_end_to_end (env_of [home_scan_reply] [sta_reply 720]) wireless_info_zero
    (env_ok_env_of _ _) rfl rfl

/-- C2, as stated, fails: on an empty scan dump (no entry is associated) with
every call succeeding, the lookup returns 1 (success) with the zero-valued
record. -/
theorem c2_empty_dump_returns_success :
    get_wireless_info (env_of [] []) wireless_info_zero = some (1, wireless_info_zero) := by
  decide

/-- C2, amended: when every library call succeeds and no entry of the scan
dump has status ASSOCIATED or IBSS_JOINED (the empty dump included),
`get_wireless_info` returns 1 and every field of the record other than
`bitrate` (which the station phase may set) is zero. -/
theorem c2_no_association_returns_success (env : nl_env) (prior : wireless_info_t)
    (hok : env_ok env)
    (hno : ∀ m ∈ env.scan_replies,
      scan_entry_status m ≠ some NL80211_BSS_STATUS_ASSOCIATED ∧
      scan_entry_status m ≠ some NL80211_BSS_STATUS_IBSS_JOINED) :
    ∃ r, get_wireless_info env prior = some (1, r) ∧
      r = { wireless_info_zero with bitrate := r.bitrate } := by
  have h1 := run_cb_scan_skip env.scan_replies wireless_info_zero hno
  obtain ⟨r, h2, e2⟩ := run_cb_sta_frame (env.sta_replies wireless_info_zero.bssid)
    wireless_info_zero
  refine ⟨r, get_wireless_info_ok env prior hok _ _ h1 h2 ?_, e2⟩
  rw [e2]

/-- A dump whose only entry has status 0 (authenticated, not associated). -/
theorem c2_no_association_returns_success_witness :
    ∃ r, get_wireless_info (env_of [scan_reply mac_aabb 2412 test_ies 4294961796 0] [])
        wireless_info_zero = some (1, r) ∧
      r = { wireless_info_zero with bitrate := r.bitrate } :=
  c2_no_association_returns_success
    (env_of [scan_reply mac_aabb 2412 test_ies 4294961796 0] []) wireless_info_zero
    (env_ok_env_of _ _)
    (by
      intro m hm
      have hm1 : m = scan_reply mac_aabb 2412 test_ies 4294961796 0 := by
        simpa [env_of] using hm
      subst hm1
      decide)

/-- C3: on the three-byte buffer `[1, 5, 0]` (element id 1, declared length 5,
one payload byte) `find_ssid` reads a byte outside the buffer: after the first
iteration the pointer is at offset 7 and the wrapped counter is 4294967292, so
the loop tests `ies[0]` there. -/
theorem c3_find_ssid_reads_outside_buffer :
    find_ssid [1, 5, 0] 3 = none ∧
    find_ssid_loop [1, 5, 0] 1 (0 + (5 + 2)) ((3 + 4294967296 - (5 + 2)) % 4294967296) = none ∧
    ([1, 5, 0] : List Nat)[0 + (5 + 2)]? = none := by
  decide

/-- C4: at m = -5600 the float evaluation gives 63, while the exact value of
the formula, truncated toward zero, is 64 (at m = -6000 both are 60). -/
theorem c4_float_formula_off_by_one :
    nl80211_xbm_to_percent (-5600) 100 = 63 ∧ xbm_percent_exact (-5600) = 64 ∧
    nl80211_xbm_to_percent (-6000) 100 = 60 ∧ xbm_percent_exact (-6000) = 60 := by
  decide

/-- C5, as stated, fails: an input below -9000 gives quality 30, not 0. -/
theorem c5_below_floor_is_not_zero :
    nl80211_xbm_to_percent (-9100) 100 = 30 ∧ nl80211_xbm_to_percent (-9100) 100 ≠ 0 := by
  decide

/-- C5, amended: for every `int32_t` input below -9000,
`nl80211_xbm_to_percent(m, 100)` is 30; for every input above -2000 it is
100. -/
theorem c5_clamped_values (m : Int) (h1 : -2147483648 ≤ m) (h2 : m < 2147483648) :
    (m < -9000 → nl80211_xbm_to_percent m 100 = 30) ∧
    (-2000 < m → nl80211_xbm_to_percent m 100 = 100) := by
  rw [xbm_to_percent_eq m h1 h2]
  constructor
  · intro h
    have hc : clamp_dbm (Int.tdiv m 100) = -90 := by
      unfold clamp_dbm
      rcases tdiv_100 m with ⟨_, ht⟩ | ⟨_, ht⟩ <;> split_ifs <;> omega
    rw [hc]
    decide
  · intro h
    have hc : clamp_dbm (Int.tdiv m 100) = -20 := by
      unfold clamp_dbm
      rcases tdiv_100 m with ⟨_, ht⟩ | ⟨_, ht⟩ <;> split_ifs <;> omega
    rw [hc]
    decide

/-- The inputs -9100 and -1500. -/
theorem c5_clamped_values_witness :
    nl80211_xbm_to_percent (-9100) 100 = 30 ∧ nl80211_xbm_to_percent (-1500) 100 = 100 :=
  ⟨(c5_clamped_values (-9100) (by decide) (by decide)).1 (by decide),
   (c5_clamped_values (-1500) (by decide) (by decide)).2 (by decide)⟩

/-- C6: a station reply that carries the bitrate 21475 (2147.5 Mbit/s) through
the chain STA_INFO, RX_BITRATE, BITRATE leaves `bitrate` at -2147467296, not
at 21475 * 100000 = 2147500000, which no `int` holds. -/
theorem c6_bitrate_overflows_int :
    (gwi_sta_cb (sta_reply 21475) wireless_info_zero).map (fun r => r.bitrate)
      = some (-2147467296) ∧
    (21475 : Int) * 100000 = 2147500000 ∧ (2147483647 : Int) < 2147500000 := by
  decide

/-- C7: on a buffer that is a concatenation of complete (id, length, payload)
elements, `find_ssid` returns the length and the payload of the first element
whose id is 0, and length 0 when no element has id 0; on the stream
`[0x00, 0x04, 'T','e','s','t', 0x01, 0x01, 0x00]` it returns the offset 2 and
the length 4, the bytes "Test", and the scan callback stores them as the
string "Test" in `essid`. -/
theorem c7_find_ssid_first_ssid_element (els : List (Nat × List Nat)) (hwf : ies_wf els)
    (hlen : (ies_bytes els).length < 4294967296) :
    (match els.find? (fun e => decide (e.1 = 0)) with
      | some e => ∃ off,
          find_ssid (ies_bytes els) (ies_bytes els).length = some (some off, e.2.length) ∧
          ((ies_bytes els).drop off).take e.2.length = e.2
      | none => ∃ q, find_ssid (ies_bytes els) (ies_bytes els).length = some (q, 0)) ∧
    find_ssid test_ies test_ies.length = some (some 2, 4) ∧
    (test_ies.drop 2).take 4 = ssid_test ∧
    (gwi_scan_cb (scan_reply mac_aabb 2412 test_ies 4294961796 NL80211_BSS_STATUS_ASSOCIATED)
      wireless_info_zero).map (fun r => c_str r.essid) = some ssid_test := by
  refine ⟨?_, by decide, by decide, by decide⟩
  obtain ⟨p, l, hloop, hres⟩ := find_ssid_elems els [] ((ies_bytes els).length + 1) hwf
    (by simpa using hlen) (by omega)
  simp only [List.nil_append, List.length_nil] at hloop hres
  have hf : find_ssid (ies_bytes els) (ies_bytes els).length
      = find_ssid_exit (ies_bytes els) p l := by
    simp only [find_ssid, find_ssid_at, hloop]
  rw [hf]
  exact hres

/-- The stream of the spec as a sequence of elements: "Test" under id 0, then
one byte under id 1. -/
theorem c7_find_ssid_first_ssid_element_witness :
    ∃ off, find_ssid (ies_bytes [(0, ssid_test), (1, [0])])
        (ies_bytes [(0, ssid_test), (1, [0])]).length = some (some off, ssid_test.length) ∧
      ((ies_bytes [(0, ssid_test), (1, [0])]).drop off).take ssid_test.length = ssid_test :=
  (c7_find_ssid_first_ssid_element [(0, ssid_test), (1, [0])] (by decide) (by decide)).1

/-- C8: when the top-level decode fails, the BSS attribute is absent, the
nested decode fails, the status is absent, the status is neither ASSOCIATED nor
IBSS_JOINED, or the BSSID is absent, `gwi_scan_cb` returns with the record
unchanged in every field. -/
theorem c8_scan_skip_leaves_record (msg : List Nat) (info : wireless_info_t)
    (h : scan_skip_reason msg) : gwi_scan_cb msg info = some info :=
  gwi_scan_cb_skip msg info h

/-- An entry with status 0 (authenticated only) and a record that is not
zero. -/
theorem c8_scan_skip_leaves_record_witness :
    gwi_scan_cb (scan_reply mac_aabb 2412 test_ies 4294961796 0) home_info = some home_info :=
  c8_scan_skip_leaves_record (scan_reply mac_aabb 2412 test_ies 4294961796 0) home_info
    (Or.inr (Or.inr (Or.inr (Or.inr (Or.inl
      ⟨_, _, _, _, _, rfl, rfl, rfl, rfl, rfl, by decide, by decide⟩)))))

/-- C9: `gwi_sta_cb` changes no field other than `bitrate`; when the STA_INFO
attribute, the nested RX_BITRATE attribute or the nested BITRATE field is
absent, or a decode fails, it leaves the whole record unchanged; and when
every library call succeeds and every station reply is such, the lookup
returns 1 with `bitrate` 0. -/
theorem c9_station_reply_touches_bitrate_only (msg : List Nat) (info : wireless_info_t)
    (env : nl_env) (prior i : wireless_info_t) :
    (∃ r, gwi_sta_cb msg info = some r ∧ r = { info with bitrate := r.bitrate }) ∧
    (sta_chain_missing msg → gwi_sta_cb msg info = some info) ∧
    (env_ok env → run_cb gwi_scan_cb env.scan_replies wireless_info_zero = some i →
      (∀ m ∈ env.sta_replies i.bssid, sta_chain_missing m) →
      get_wireless_info env prior = some (1, i) ∧ i.bitrate = 0) := by
  refine ⟨gwi_sta_cb_frame msg info, gwi_sta_cb_missing msg info, ?_⟩
  intro hok hscan hall
  have h2 := run_cb_sta_missing (env.sta_replies i.bssid) i hall
  exact ⟨get_wireless_info_ok env prior hok i i hscan h2 rfl,
    (run_cb_scan_frame _ _ _ hscan).1⟩

/-- A station reply without a receive-bitrate container, after the scan of
the end-to-end scenario. -/
theorem c9_station_reply_touches_bitrate_only_witness :
    gwi_sta_cb sta_reply_no_rate home_info = some home_info ∧
    get_wireless_info (env_of [home_scan_reply] [sta_reply_no_rate]) home_info
      = some (1, { home_info with bitrate := 0 }) ∧
    ({ home_info with bitrate := 0 } : wireless_info_t).bitrate = 0 :=
  have hmiss : sta_chain_missing sta_reply_no_rate :=
    Or.inr (Or.inr (Or.inr (Or.inl ⟨_, _, _, rfl, rfl, rfl, rfl⟩)))
  have h := c9_station_reply_touches_bitrate_only sta_reply_no_rate home_info
    (env_of [home_scan_reply] [sta_reply_no_rate]) home_info { home_info with bitrate := 0 }
  ⟨h.2.1 hmiss,
   h.2.2 (env_ok_env_of _ _) (by decide)
    (by
      intro m hm
      have hm1 : m = sta_reply_no_rate := by simpa [env_of] using hm
      rw [hm1]
      exact hmiss)⟩

/-- C10, as stated, fails: for the accepted entry whose SSID element has the
three payload bytes 'A', NUL, 'B' (`find_ssid` returns length 3), `essid`
holds the string "A" and its first three bytes are 'A', NUL, NUL, not the
first min(3, 32) bytes of the payload. -/
theorem c10_nul_byte_cuts_the_copy :
    find_ssid (ies_bytes [(0, [65, 0, 66])]) 5 = some (some 2, 3) ∧
    (gwi_scan_cb nul_ssid_scan_reply wireless_info_zero).map (fun r => c_str r.essid)
      = some [65] ∧
    (gwi_scan_cb nul_ssid_scan_reply wireless_info_zero).map (fun r => r.essid.take 3)
      = some [65, 0, 0] ∧
    ([65, 0, 66] : List Nat).take (min 3 32) ≠ [65] ∧
    ([65, 0, 66] : List Nat).take (min 3 32) ≠ [65, 0, 0] := by
  decide

/-- C10, amended: for an accepted entry (status ASSOCIATED or IBSS_JOINED, a
BSSID of six bytes) whose information elements hold a found SSID element of
length n ≥ 1, `gwi_scan_cb` sets `essid` to the string made of the first
min(n, 32) bytes of the SSID payload cut before their first NUL byte, so to
all of these bytes when none of them is NUL; the string never has more than
32 bytes. -/
theorem c10_essid_copy (msg : List Nat) (info : wireless_info_t) (tb bss : attr_table)
    (nbss st b a : nlattr) (status off n : Nat)
    (hbytes : is_bytes msg) (hlen : msg.length < 4294967296)
    (hp : nla_parse NL80211_ATTR_MAX msg none = some tb)
    (hs : tb NL80211_ATTR_BSS = some nbss)
    (hn : nla_parse_nested NL80211_BSS_MAX msg nbss (some bss_policy) = some bss)
    (hst : bss NL80211_BSS_STATUS = some st)
    (hv : nla_get_u32 (nla_data msg nbss) st = some status)
    (hacc : status = NL80211_BSS_STATUS_ASSOCIATED ∨ status = NL80211_BSS_STATUS_IBSS_JOINED)
    (hb : bss NL80211_BSS_BSSID = some b) (hb6 : ETH_ALEN ≤ nla_len b)
    (ha : bss NL80211_BSS_INFORMATION_ELEMENTS = some a)
    (hf : find_ssid (nla_data (nla_data msg nbss) a) (nla_len a) = some (some off, n))
    (hn1 : 1 ≤ n) :
    ∃ r, gwi_scan_cb msg info = some r ∧
      c_str r.essid
        = ((((nla_data (nla_data msg nbss) a).drop off).take n).take (min n 32)).takeWhile
            (· ≠ 0) ∧
      (c_str r.essid).length ≤ 32 ∧
      ((0 : Nat) ∉ (((nla_data (nla_data msg nbss) a).drop off).take n).take (min n 32) →
        c_str r.essid = (((nla_data (nla_data msg nbss) a).drop off).take n).take (min n 32)) := by
  have hokb := nla_parse_ok _ _ _ _ hn _ _ hb
  have hoka := nla_parse_ok _ _ _ _ hn _ _ ha
  have hmac := read_bssid_some msg nbss b hokb.1 hb6
  have hacc1 : ¬ (status ≠ NL80211_BSS_STATUS_ASSOCIATED ∧
      status ≠ NL80211_BSS_STATUS_IBSS_JOINED) := by
    rcases hacc with h | h <;> simp [h]
  obtain ⟨i1, i2, i3, _, _, _, _, _, _, hfill, _⟩ := gwi_scan_fill_blocks msg nbss bss hn
    { info with bssid := (nla_data (nla_data msg nbss) b).take ETH_ALEN }
  obtain ⟨e, h4, hc, hl⟩ := scan_essid_found msg nbss bss a off n hbytes hlen hoka.1 ha hf hn1 i3
  refine ⟨{ i3 with essid := e }, ?_, hc, hl, ?_⟩
  · apply gwi_scan_cb_of_run
    simp only [gwi_scan_cb_run, hp, hs, hn, hst, hv, hb, hmac]
    rw [if_neg hacc1, hfill, h4]
  · intro hnul
    rw [hc]
    apply List.takeWhile_eq_self_iff.mpr
    intro x hx
    simp only [ne_eq, decide_not, Bool.not_eq_true', decide_eq_false_iff_not]
    intro hx0
    exact hnul (hx0 ▸ hx)

set_option maxRecDepth 8000 in
/-- An entry whose SSID element has 40 bytes: `essid` holds the first 32. -/
theorem c10_essid_copy_witness :
    ∃ r, gwi_scan_cb long_ssid_scan_reply wireless_info_zero = some r ∧
      c_str r.essid = List.replicate 32 97 :=
  have hb : is_bytes long_ssid_scan_reply := by decide
  have h := c10_essid_copy long_ssid_scan_reply wireless_info_zero _ _ _ _ _ _ _ _ 40
    hb (by decide) rfl rfl rfl rfl rfl (Or.inl rfl) rfl (by decide) rfl rfl (by decide)
  match h with
  | ⟨r, h1, h2, _, _⟩ => ⟨r, h1, h2.trans (by decide)⟩

/-! ## The claims (continued) -/

/-- The clamp is monotone and lands in `[-90, -20]`. -/
theorem clamp_dbm_mono (x1 x2 : Int) (h : x1 ≤ x2) :
    clamp_dbm x1 ≤ clamp_dbm x2 ∧ -90 ≤ clamp_dbm x1 ∧ clamp_dbm x1 ≤ -20 := by
  unfold clamp_dbm
  split_ifs <;> omega

/-- The conversion to `int32_t` lands in the range of `int32_t`. -/
theorem to_int32_range (n : Int) : -2147483648 ≤ to_int32 n ∧ to_int32 n < 2147483648 := by
  unfold to_int32
  simp only
  split <;> omega

/-- A 32-bit value read from a byte buffer is below 2^32. -/
theorem nla_get_u32_lt (buf : List Nat) (a : nlattr) (v : Nat) (hb : is_bytes buf)
    (h : nla_get_u32 buf a = some v) : v < 4294967296 := by
  have hd := is_bytes_nla_data buf a hb
  unfold nla_get_u32 at h
  split at h
  · rename_i b0 b1 b2 b3 rest heq
    rw [heq] at hd
    have h0 := hd b0 (by simp)
    have h1 := hd b1 (by simp)
    have h2 := hd b2 (by simp)
    have h3 := hd b3 (by simp)
    cases h
    omega
  · cases h

/-- The quality that the SIGNAL_MBM block stores is the value of
`nl80211_xbm_to_percent`: the conversion to `int` changes nothing. -/
theorem quality_to_int32 (m : Nat) :
    to_int32 (nl80211_xbm_to_percent (to_int32 m) 100 : Nat)
      = (nl80211_xbm_to_percent (to_int32 m) 100 : Nat) := by
  have hrng := to_int32_range m
  have hc := clamp_dbm_mono (Int.tdiv (to_int32 m) 100) _ (Int.le_refl _)
  apply to_int32_of_range
  · omega
  · rw [xbm_to_percent_eq _ hrng.1 hrng.2]
    split_ifs <;> omega

/-- The nested decode of an accepted entry. -/
theorem scan_entry_accepted_nested (msg : List Nat) (nbss : nlattr) (bss : attr_table)
    (b : nlattr) (h : scan_entry_accepted msg nbss bss b) :
    nla_parse_nested NL80211_BSS_MAX msg nbss (some bss_policy) = some bss := by
  obtain ⟨tb, st, status, hp, hs, hn, _⟩ := h
  exact hn

/-- On an accepted entry `gwi_scan_cb` copies the first `ETH_ALEN` bytes of the
BSSID and runs the four optional blocks. -/
theorem gwi_scan_cb_run_accepted (msg : List Nat) (info : wireless_info_t) (nbss : nlattr)
    (bss : attr_table) (b : nlattr) (h : scan_entry_accepted msg nbss bss b) :
    gwi_scan_cb_run msg info = gwi_scan_fill msg nbss bss
      { info with bssid := (nla_data (nla_data msg nbss) b).take ETH_ALEN } := by
  obtain ⟨tb, st, status, hp, hs, hn, hst, hv, hacc, hb, hb6⟩ := h
  have hokb := nla_parse_ok _ _ _ _ hn _ _ hb
  have hmac := read_bssid_some msg nbss b hokb.1 hb6
  have hacc1 : ¬ (status ≠ NL80211_BSS_STATUS_ASSOCIATED ∧
      status ≠ NL80211_BSS_STATUS_IBSS_JOINED) := by
    rcases hacc with h | h <;> simp [h]
  simp only [gwi_scan_cb_run, hp, hs, hn, hst, hv, hb, hmac]
  rw [if_neg hacc1]

/-- What `gwi_scan_cb` has written into the record on an accepted entry when
it comes to the information elements (so also when `find_ssid` goes on to read
outside the message): the BSSID; the frequency when the entry carries one; the
signal level and the quality from SIGNAL_MBM when the entry carries it, from
SIGNAL_UNSPEC when it carries that one only.  A field whose attribute the
entry lacks is as it was. -/
theorem gwi_scan_cb_run_accepted_fields (msg : List Nat) (info : wireless_info_t)
    (nbss : nlattr) (bss : attr_table) (b : nlattr)
    (h : scan_entry_accepted msg nbss bss b) :
    (gwi_scan_cb_run msg info).1.bssid = (nla_data (nla_data msg nbss) b).take ETH_ALEN ∧
    (∀ a f, bss NL80211_BSS_FREQUENCY = some a →
      nla_get_u32 (nla_data msg nbss) a = some f →
      (gwi_scan_cb_run msg info).1.frequency = f * 1000000) ∧
    (bss NL80211_BSS_FREQUENCY = none →
      (gwi_scan_cb_run msg info).1.frequency = info.frequency) ∧
    (∀ a m, bss NL80211_BSS_SIGNAL_MBM = some a →
      nla_get_u32 (nla_data msg nbss) a = some m →
      (gwi_scan_cb_run msg info).1.signal_level = Int.tdiv (to_int32 m) 100 ∧
      (gwi_scan_cb_run msg info).1.quality
        = (nl80211_xbm_to_percent (to_int32 m) 100 : Nat)) ∧
    (∀ a u, bss NL80211_BSS_SIGNAL_MBM = none →
      bss NL80211_BSS_SIGNAL_UNSPEC = some a →
      nla_get_u8 (nla_data msg nbss) a = some u →
      (gwi_scan_cb_run msg info).1.signal_level = (u : Int) ∧
      (gwi_scan_cb_run msg info).1.quality = (u : Int)) ∧
    (bss NL80211_BSS_SIGNAL_MBM = none → bss NL80211_BSS_SIGNAL_UNSPEC = none →
      (gwi_scan_cb_run msg info).1.signal_level = info.signal_level ∧
      (gwi_scan_cb_run msg info).1.quality = info.quality) := by
  have hn := scan_entry_accepted_nested msg nbss bss b h
  obtain ⟨i1, i2, i3, h1, h2, h3, e1, e2, e3, _, e4⟩ := gwi_scan_fill_blocks msg nbss bss hn
    { info with bssid := (nla_data (nla_data msg nbss) b).take ETH_ALEN }
  rw [gwi_scan_cb_run_accepted msg info nbss bss b h]
  generalize (gwi_scan_fill msg nbss bss
    { info with bssid := (nla_data (nla_data msg nbss) b).take ETH_ALEN }).1 = R at e4
  have b4 : R.bssid = i3.bssid := by
    have := congrArg wireless_info_t.bssid e4
    exact this
  have b3 : i3.bssid = i2.bssid := by
    have := congrArg wireless_info_t.bssid e3
    exact this
  have b2 : i2.bssid = i1.bssid := by
    have := congrArg wireless_info_t.bssid e2
    exact this
  have b1 : i1.bssid = (nla_data (nla_data msg nbss) b).take ETH_ALEN := by
    have := congrArg wireless_info_t.bssid e1
    exact this
  have f4 : R.frequency = i3.frequency := by
    have := congrArg wireless_info_t.frequency e4
    exact this
  have f3 : i3.frequency = i2.frequency := by
    have := congrArg wireless_info_t.frequency e3
    exact this
  have f2 : i2.frequency = i1.frequency := by
    have := congrArg wireless_info_t.frequency e2
    exact this
  have s4 : R.signal_level = i3.signal_level := by
    have := congrArg wireless_info_t.signal_level e4
    exact this
  have q4 : R.quality = i3.quality := by
    have := congrArg wireless_info_t.quality e4
    exact this
  have s1 : i1.signal_level = info.signal_level := by
    have := congrArg wireless_info_t.signal_level e1
    exact this
  have q1 : i1.quality = info.quality := by
    have := congrArg wireless_info_t.quality e1
    exact this
  refine ⟨by rw [b4, b3, b2, b1], ?_, ?_, ?_, ?_, ?_⟩
  · intro a f ha hf
    simp only [scan_frequency, ha, hf, Option.some.injEq] at h1
    have f1 := congrArg wireless_info_t.frequency h1
    simp only at f1
    rw [f4, f3, f2, ← f1]
  · intro ha
    simp only [scan_frequency, ha, Option.some.injEq] at h1
    have f1 := congrArg wireless_info_t.frequency h1
    simp only at f1
    rw [f4, f3, f2, ← f1]
  · intro a m ha hm
    simp only [scan_signal_mbm, ha, hm, Option.some.injEq] at h3
    have hs3 := congrArg wireless_info_t.signal_level h3
    have hq3 := congrArg wireless_info_t.quality h3
    simp only at hs3 hq3
    exact ⟨s4.trans hs3.symm, (q4.trans hq3.symm).trans (quality_to_int32 m)⟩
  · intro a u hm ha hu
    simp only [scan_signal_mbm, hm, Option.some.injEq] at h3
    simp only [scan_signal_unspec, ha, hu, Option.some.injEq] at h2
    have hs2 := congrArg wireless_info_t.signal_level h2
    have hq2 := congrArg wireless_info_t.quality h2
    simp only at hs2 hq2
    rw [s4, q4, ← h3]
    exact ⟨hs2.symm, hq2.symm⟩
  · intro hm hu
    simp only [scan_signal_mbm, hm, Option.some.injEq] at h3
    simp only [scan_signal_unspec, hu, Option.some.injEq] at h2
    rw [s4, q4, ← h3, ← h2]
    exact ⟨s1, q1⟩

/-- C11: on an accepted entry that carries SIGNAL_MBM with value `m`, with or
without SIGNAL_UNSPEC, `gwi_scan_cb` sets `signal_level` to `m / 100` (`m` as
`int32_t`, C division) and `quality` to `nl80211_xbm_to_percent(m, 100)`; on
an accepted entry that carries SIGNAL_UNSPEC with value `u` and no SIGNAL_MBM
it sets both to `u`.  The fields are those of the record that the callback
has written when it comes to the information elements, whatever these are;
when the callback returns, they are those of the record on return. -/
theorem c11_signal_fields (msg : List Nat) (info : wireless_info_t) (nbss : nlattr)
    (bss : attr_table) (b : nlattr) (h : scan_entry_accepted msg nbss bss b) :
    (∀ a m, bss NL80211_BSS_SIGNAL_MBM = some a →
      nla_get_u32 (nla_data msg nbss) a = some m →
      (gwi_scan_cb_run msg info).1.signal_level = Int.tdiv (to_int32 m) 100 ∧
      (gwi_scan_cb_run msg info).1.quality
        = (nl80211_xbm_to_percent (to_int32 m) 100 : Nat)) ∧
    (∀ a u, bss NL80211_BSS_SIGNAL_MBM = none →
      bss NL80211_BSS_SIGNAL_UNSPEC = some a →
      nla_get_u8 (nla_data msg nbss) a = some u →
      (gwi_scan_cb_run msg info).1.signal_level = (u : Int) ∧
      (gwi_scan_cb_run msg info).1.quality = (u : Int)) ∧
    (∀ r, gwi_scan_cb msg info = some r → r = (gwi_scan_cb_run msg info).1) := by
  obtain ⟨_, _, _, hm, hu, _⟩ := gwi_scan_cb_run_accepted_fields msg info nbss bss b h
  refine ⟨hm, hu, ?_⟩
  intro r hr
  rw [gwi_scan_cb_run_of_some msg info r hr]

/-- The entry of the end-to-end scenario (SIGNAL_MBM -5500), an entry with
SIGNAL_UNSPEC 77 only, and the entry with SIGNAL_MBM -5500 whose information
elements are `[0x01, 0x05, 0x00]`. -/
theorem c11_signal_fields_witness :
    (∃ r, gwi_scan_cb home_scan_reply wireless_info_zero = some r ∧
      r.signal_level = -55 ∧ r.quality = 65) ∧
    (∃ r, gwi_scan_cb (unspec_scan_reply 77) wireless_info_zero = some r ∧
      r.signal_level = 77 ∧ r.quality = 77) ∧
    (gwi_scan_cb_run overlong_ie_scan_reply wireless_info_zero).1.signal_level = -55 ∧
    (gwi_scan_cb_run overlong_ie_scan_reply wireless_info_zero).1.quality = 65 :=
  have h1 := c11_signal_fields home_scan_reply wireless_info_zero _ _ _
    ⟨_, _, _, rfl, rfl, rfl, rfl, rfl, Or.inl rfl, rfl, by decide⟩
  have h2 := c11_signal_fields (unspec_scan_reply 77) wireless_info_zero _ _ _
    ⟨_, _, _, rfl, rfl, rfl, rfl, rfl, Or.inl rfl, rfl, by decide⟩
  have h3 := c11_signal_fields overlong_ie_scan_reply wireless_info_zero _ _ _
    ⟨_, _, _, rfl, rfl, rfl, rfl, rfl, Or.inl rfl, rfl, by decide⟩
  have e1 : gwi_scan_cb home_scan_reply wireless_info_zero
      = some (gwi_scan_cb_run home_scan_reply wireless_info_zero).1 := by decide
  have e2 : gwi_scan_cb (unspec_scan_reply 77) wireless_info_zero
      = some (gwi_scan_cb_run (unspec_scan_reply 77) wireless_info_zero).1 := by decide
  ⟨⟨_, e1, (h1.1 _ 4294961796 rfl rfl).1, (h1.1 _ 4294961796 rfl rfl).2.trans (by decide)⟩,
   ⟨_, e2, (h2.2.1 _ 77 rfl rfl rfl).1, (h2.2.1 _ 77 rfl rfl rfl).2⟩,
   (h3.1 _ 4294961796 rfl rfl).1, (h3.1 _ 4294961796 rfl rfl).2.trans (by decide)⟩

/-! ## Lemmas: the `double` product -/

/-- The number of binary digits: `2^(bitlen n - 1) ≤ n < 2^(bitlen n)`. -/
theorem bitlen_spec : ∀ (fuel n : Nat), 0 < n → n ≤ fuel →
    2 ^ (bitlen fuel n - 1) ≤ n ∧ n < 2 ^ bitlen fuel n ∧ 1 ≤ bitlen fuel n := by
  intro fuel
  induction fuel with
  | zero => intro n h1 h2; omega
  | succ fuel ih =>
    intro n hn hle
    simp only [bitlen]
    rw [if_neg (by omega)]
    by_cases h2 : n / 2 = 0
    · have h1 : n = 1 := by omega
      subst h1
      have hb : bitlen fuel (1 / 2) = 0 := by
        cases fuel <;> simp [bitlen]
      rw [hb]
      simp
    · obtain ⟨a, b, c⟩ := ih (n / 2) (by omega) (by omega)
      obtain ⟨j, hj⟩ : ∃ j, bitlen fuel (n / 2) = j + 1 := ⟨bitlen fuel (n / 2) - 1, by omega⟩
      rw [hj] at a b ⊢
      simp only [Nat.add_sub_cancel] at a ⊢
      have p1 : 2 ^ (j + 1) = 2 * 2 ^ j := by rw [Nat.pow_succ]; omega
      have p2 : 2 ^ (j + 1 + 1) = 2 * 2 ^ (j + 1) := by rw [Nat.pow_succ]; omega
      refine ⟨by omega, by omega, by omega⟩

/-- The exponent of an integer below `2^p` is below `p`. -/
theorem fp_exponent_lt (k d p : Nat) (hk : 0 < k) (hd : 0 < d) (hkp : k < 2 ^ p) :
    fp_exponent (k * d) d < (p : Int) := by
  have hn : 0 < k * d := Nat.mul_pos hk hd
  obtain ⟨n1, n2, n3⟩ := bitlen_spec (k * d) (k * d) hn (Nat.le_refl _)
  obtain ⟨d1, d2, d3⟩ := bitlen_spec d d hd (Nat.le_refl _)
  unfold fp_exponent
  simp only
  generalize bitlen (k * d) (k * d) = ln at *
  generalize bitlen d d = ld at *
  have hp : 0 < p := by
    rcases Nat.eq_zero_or_pos p with h | h
    · subst h
      simp only [Nat.pow_zero] at hkp
      omega
    · exact h
  split_ifs with hc
  · by_cases hle : ln ≤ ld
    · omega
    · have e1 : ((ln : Int) - ld).toNat = ln - ld := by omega
      have e2 : ((ld : Int) - ln).toNat = 0 := by omega
      rw [e1, e2, Nat.pow_zero, Nat.mul_one, Nat.mul_comm k d] at hc
      have h3 : 2 ^ (ln - ld) ≤ k := Nat.le_of_mul_le_mul_left hc hd
      have h4 : 2 ^ (ln - ld) < 2 ^ p := Nat.lt_of_le_of_lt h3 hkp
      have h5 : ln - ld < p := (Nat.pow_lt_pow_iff_right (by decide)).mp h4
      omega
  · have h3 : k * d < 2 ^ p * 2 ^ ld := Nat.mul_lt_mul'' hkp d2
    rw [← Nat.pow_add] at h3
    have h4 : 2 ^ (ln - 1) < 2 ^ (p + ld) := Nat.lt_of_le_of_lt n1 h3
    have h5 : ln - 1 < p + ld := (Nat.pow_lt_pow_iff_right (by decide)).mp h4
    omega

/-- Scaling an integer up by a power of two and back is exact. -/
theorem fp_scaled_round_exact (k d : Nat) (s : Int) (hs : 0 ≤ s) (hd : 0 < d) :
    (fp_scaled_round (k * d) d s).num = ((k : Nat) : Int) * (fp_scaled_round (k * d) d s).den ∧
    0 < (fp_scaled_round (k * d) d s).den := by
  have e2 : (-s).toNat = 0 := by omega
  unfold fp_scaled_round
  simp only [e2, Nat.pow_zero, Nat.mul_one]
  have hq : k * d * 2 ^ s.toNat / d = k * 2 ^ s.toNat := by
    rw [Nat.mul_right_comm, Nat.mul_div_cancel _ hd]
  have hr : k * d * 2 ^ s.toNat % d = 0 := by
    rw [Nat.mul_right_comm]
    exact Nat.mul_mod_left _ _
  rw [hq, hr, if_neg (by omega)]
  refine ⟨by push_cast; ring, pow_pos (by decide) _⟩

/-- The binary64 rounding of an integer below `2^53`, given as a fraction, is
that integer. -/
theorem f64_round_exact (k d : Nat) (hk : k < 2 ^ 53) (hd : 0 < d) :
    (f64_round ⟨(k * d : Nat), d⟩).num = ((k : Nat) : Int) * (f64_round ⟨(k * d : Nat), d⟩).den ∧
    0 < (f64_round ⟨(k * d : Nat), d⟩).den := by
  unfold f64_round
  by_cases hk0 : k = 0
  · subst hk0
    simp
  · have hkpos : 0 < k := Nat.pos_of_ne_zero hk0
    have hn : 0 < k * d := Nat.mul_pos hkpos hd
    have hne : ((k * d : Nat) : Int) ≠ 0 := by omega
    have hnn : ¬ ((k * d : Nat) : Int) < 0 := by omega
    simp only [hne, hnn, if_false, Int.natAbs_ofNat]
    unfold f64_round_pos
    have he := fp_exponent_lt k d 53 hkpos hd hk
    exact fp_scaled_round_exact k d _ (by omega) hd

/-- The `double` product `(double)f * 1e6` is `f * 10^6` exactly for every
32-bit `f`. -/
theorem frequency_double_exact (f : Nat) (hf : f < 4294967296) :
    (frequency_double f).num = ((f * 1000000 : Nat) : Int) * (frequency_double f).den ∧
    0 < (frequency_double f).den := by
  obtain ⟨a1, a2⟩ := f64_round_exact f 1 (by omega) (by decide)
  obtain ⟨b1, b2⟩ := f64_round_exact 1000000 1 (by decide) (by decide)
  simp only [Nat.mul_one] at a1 a2 b1 b2
  unfold frequency_double f64_mul f64_of_int Frac.ofInt Frac.mul
  generalize f64_round ⟨(f : Int), 1⟩ = x at *
  generalize f64_round ⟨1000000, 1⟩ = y at *
  obtain ⟨xn, xd⟩ := x
  obtain ⟨yn, yd⟩ := y
  simp only at a1 a2 b1 b2 ⊢
  have hprod : xn * yn = ((f * 1000000 * (xd * yd) : Nat) : Int) := by
    rw [a1, b1]
    push_cast
    ring
  rw [hprod]
  exact f64_round_exact (f * 1000000) (xd * yd)
    (by have : (2 : Nat) ^ 53 = 9007199254740992 := by decide
        omega)
    (Nat.mul_pos a2 b2)

/-- C14: on an accepted entry whose frequency attribute holds the value `f`,
`f` is below 2^32, `gwi_scan_cb` sets `frequency` to `f * 1000000`, and the
`double` product `(double)f * 1e6` that the code computes has exactly this
value (no rounding).  The field is the one of the record that the callback has
written when it comes to the information elements, whatever these are; when
the callback returns, it is the one of the record on return. -/
theorem c14_frequency_exact (msg : List Nat) (info : wireless_info_t) (nbss : nlattr)
    (bss : attr_table) (b : nlattr) (h : scan_entry_accepted msg nbss bss b)
    (hbytes : is_bytes msg) (a : nlattr) (f : Nat)
    (ha : bss NL80211_BSS_FREQUENCY = some a)
    (hf : nla_get_u32 (nla_data msg nbss) a = some f) :
    (gwi_scan_cb_run msg info).1.frequency = f * 1000000 ∧ f < 4294967296 ∧
    (frequency_double f).num = ((f * 1000000 : Nat) : Int) * (frequency_double f).den ∧
    0 < (frequency_double f).den ∧
    (∀ r, gwi_scan_cb msg info = some r → r.frequency = f * 1000000) := by
  obtain ⟨_, hfr, _⟩ := gwi_scan_cb_run_accepted_fields msg info nbss bss b h
  have hf32 : f < 4294967296 := nla_get_u32_lt _ a f (is_bytes_nla_data _ _ hbytes) hf
  obtain ⟨d1, d2⟩ := frequency_double_exact f hf32
  refine ⟨hfr a f ha hf, hf32, d1, d2, ?_⟩
  intro r hr
  have e := hfr a f ha hf
  rw [gwi_scan_cb_run_of_some msg info r hr] at e
  exact e

/-- The entry of the end-to-end scenario, and the entry whose information
elements are `[0x01, 0x05, 0x00]`: 2412 MHz gives 2412000000 Hz. -/
theorem c14_frequency_exact_witness :
    (∃ r, gwi_scan_cb home_scan_reply wireless_info_zero = some r ∧
      r.frequency = 2412000000) ∧
    (gwi_scan_cb_run overlong_ie_scan_reply wireless_info_zero).1.frequency = 2412000000 ∧
    (frequency_double 2412).num = 2412000000 * (frequency_double 2412).den ∧
    0 < (frequency_double 2412).den :=
  have h1 := c14_frequency_exact home_scan_reply wireless_info_zero _ _ _
    ⟨_, _, _, rfl, rfl, rfl, rfl, rfl, Or.inl rfl, rfl, by decide⟩ (by decide) _ 2412 rfl rfl
  have h2 := c14_frequency_exact overlong_ie_scan_reply wireless_info_zero _ _ _
    ⟨_, _, _, rfl, rfl, rfl, rfl, rfl, Or.inl rfl, rfl, by decide⟩ (by decide) _ 2412 rfl rfl
  have e1 : gwi_scan_cb home_scan_reply wireless_info_zero
      = some (gwi_scan_cb_run home_scan_reply wireless_info_zero).1 := by decide
  ⟨⟨_, e1, h1.1⟩, h2.1, h1.2.2.1, h1.2.2.2.1⟩

/-! ## Lemmas: the scan phase -/

/-- Running a callback over two dumps in a row. -/
theorem run_cb_append (cb : List Nat → wireless_info_t → Option wireless_info_t)
    (l1 l2 : List (List Nat)) : ∀ (info : wireless_info_t),
    run_cb cb (l1 ++ l2) info = (run_cb cb l1 info).bind (run_cb cb l2) := by
  induction l1 with
  | nil => intro info; rfl
  | cons m ms ih =>
    intro info
    simp only [List.cons_append, run_cb]
    rcases cb m info with _ | i1
    · rfl
    · exact ih i1

/-- Replies that each carry a reason to skip leave the record as it was. -/
theorem run_cb_skip_reasons (msgs : List (List Nat)) (info : wireless_info_t)
    (h : ∀ m ∈ msgs, scan_skip_reason m) : run_cb gwi_scan_cb msgs info = some info := by
  induction msgs with
  | nil => rfl
  | cons m ms ih =>
    simp only [run_cb, gwi_scan_cb_skip m info (h m (List.mem_cons_self _ _))]
    exact ih (fun m1 h1 => h m1 (List.mem_cons_of_mem _ h1))

/-- On a sequence of complete elements none of which has id 0, `find_ssid`
reports length 0. -/
theorem find_ssid_no_ssid (els : List (Nat × List Nat)) (hwf : ies_wf els)
    (hlen : (ies_bytes els).length < 4294967296)
    (hno : els.find? (fun e => decide (e.1 = 0)) = none) :
    ∃ q, find_ssid (ies_bytes els) (ies_bytes els).length = some (q, 0) := by
  obtain ⟨p, l, hloop, hres⟩ := find_ssid_elems els [] ((ies_bytes els).length + 1) hwf
    (by simpa using hlen) (by omega)
  simp only [List.nil_append, List.length_nil] at hloop hres
  rw [hno] at hres
  obtain ⟨q, hq⟩ := hres
  exact ⟨q, by simp only [find_ssid, find_ssid_at, hloop, hq]⟩

/-- The string that `snprintf(essid, 33, "%.*s", n, src)` leaves in `essid`
when it returns. -/
theorem snprintf_some_c_str (dst src : List Nat) (n : Nat) (e : List Nat)
    (h : snprintf_prec_s dst (IW_ESSID_MAX_SIZE + 1) n src = some e) :
    c_str e = ((src.take n).take (min n 32)).takeWhile (· ≠ 0) ∧ (c_str e).length ≤ 32 := by
  have h32 : (src.take n).take (min n 32) = (src.take n).take 32 := by
    simp only [List.take_take]
    congr 1
    omega
  have hc : c_str (List.take 32 (List.takeWhile (fun x => decide (x ≠ 0)) (List.take n src))
      ++ [0] ++ List.drop
        ((List.take 32 (List.takeWhile (fun x => decide (x ≠ 0)) (List.take n src))).length + 1)
        dst)
      = List.take 32 (List.takeWhile (fun x => decide (x ≠ 0)) (List.take n src)) := by
    unfold c_str
    rw [List.append_assoc]
    apply takeWhile_append_stop
    · intro x hx
      exact takeWhile_all _ _ x (List.mem_of_mem_take hx)
    · simp
  unfold snprintf_prec_s at h
  simp only [IW_ESSID_MAX_SIZE] at h
  split at h
  · cases h
  · have he := Option.some.inj h
    rw [← he]
    refine ⟨?_, ?_⟩
    · rw [hc, h32, take_takeWhile_comm]
    · rw [hc, List.length_take]
      omega

/-- What `gwi_scan_cb` leaves in `essid` on an accepted entry, when it
returns: the field is as it was when the entry carries no information
elements or `find_ssid` reports length 0, and it holds the string made of the
first min(n, 32) bytes at the pointer that `find_ssid` returns, cut before
their first NUL byte, when `find_ssid` reports a length `n` other than 0. -/
theorem gwi_scan_cb_accepted_essid (msg : List Nat) (info r : wireless_info_t)
    (nbss : nlattr) (bss : attr_table) (b : nlattr)
    (h : scan_entry_accepted msg nbss bss b) (hr : gwi_scan_cb msg info = some r) :
    (bss NL80211_BSS_INFORMATION_ELEMENTS = none → r.essid = info.essid) ∧
    (∀ a q, bss NL80211_BSS_INFORMATION_ELEMENTS = some a →
      find_ssid_at msg (nbss.off + a.off) (nla_len a) = some (q, 0) →
      r.essid = info.essid) ∧
    (∀ a off n, bss NL80211_BSS_INFORMATION_ELEMENTS = some a →
      find_ssid_at msg (nbss.off + a.off) (nla_len a) = some (some off, n) → n ≠ 0 →
      c_str r.essid = (((msg.drop off).take n).take (min n 32)).takeWhile (· ≠ 0) ∧
      (c_str r.essid).length ≤ 32) := by
  have hn := scan_entry_accepted_nested msg nbss bss b h
  obtain ⟨i1, i2, i3, _, _, _, e1, e2, e3, hfill, _⟩ := gwi_scan_fill_blocks msg nbss bss hn
    { info with bssid := (nla_data (nla_data msg nbss) b).take ETH_ALEN }
  have hrun := gwi_scan_cb_run_of_some msg info r hr
  rw [gwi_scan_cb_run_accepted msg info nbss bss b h, hfill] at hrun
  have hi3 : i3.essid = info.essid := by
    have a3 : i3.essid = i2.essid := by
      have := congrArg wireless_info_t.essid e3
      exact this
    have a2 : i2.essid = i1.essid := by
      have := congrArg wireless_info_t.essid e2
      exact this
    have a1 : i1.essid = info.essid := by
      have := congrArg wireless_info_t.essid e1
      exact this
    rw [a3, a2, a1]
  rcases hs : scan_essid msg nbss bss i3 with _ | r2
  · rw [hs] at hrun
    cases hrun
  rw [hs] at hrun
  have hr2 : r2 = r := congrArg Prod.fst hrun
  subst hr2
  refine ⟨?_, ?_, ?_⟩
  · intro ha
    simp only [scan_essid, ha, Option.some.injEq] at hs
    rw [← hs]
    exact hi3
  · intro a q ha hat
    simp only [scan_essid, ha, hat] at hs
    rcases q with _ | off
    · simp only [Option.some.injEq] at hs
      rw [← hs]
      exact hi3
    · simp only [ne_eq, not_true_eq_false, if_false, Option.some.injEq] at hs
      rw [← hs]
      exact hi3
  · intro a off n ha hat hn0
    simp only [scan_essid, ha, hat] at hs
    rw [if_pos hn0] at hs
    rcases he : snprintf_prec_s i3.essid (IW_ESSID_MAX_SIZE + 1) n (msg.drop off) with _ | e
    · rw [he] at hs
      cases hs
    · rw [he] at hs
      simp only [Option.some.injEq] at hs
      have hre : r2.essid = e := by
        rw [← hs]
      rw [hre]
      exact snprintf_some_c_str _ _ _ _ he

/-- The lookup on a dump with exactly one accepted entry that lacks the
frequency and both signal attributes, and whose information elements are
absent or are complete elements none of which is an SSID element: it returns
1 with `bssid` the BSSID of the entry, `frequency`, `signal_level`, `quality`
and `noise_level` 0 and `essid` empty, for every prior content of the
record. -/
theorem lookup_missing_optional_fields (env : nl_env) (prior : wireless_info_t)
    (ms1 ms2 : List (List Nat)) (m : List Nat) (nbss : nlattr) (bss : attr_table) (b : nlattr)
    (hok : env_ok env) (hdump : env.scan_replies = ms1 ++ m :: ms2)
    (hm1 : ∀ x ∈ ms1, scan_skip_reason x) (hm2 : ∀ x ∈ ms2, scan_skip_reason x)
    (hacc : scan_entry_accepted m nbss bss b) (hb6 : nla_len b = ETH_ALEN)
    (hlen : m.length < 4294967296)
    (hfreq : bss NL80211_BSS_FREQUENCY = none)
    (hunspec : bss NL80211_BSS_SIGNAL_UNSPEC = none)
    (hmbm : bss NL80211_BSS_SIGNAL_MBM = none)
    (hies : bss NL80211_BSS_INFORMATION_ELEMENTS = none ∨
      ∃ a els, bss NL80211_BSS_INFORMATION_ELEMENTS = some a ∧
        nla_data (nla_data m nbss) a = ies_bytes els ∧ ies_wf els ∧
        els.find? (fun e => decide (e.1 = 0)) = none) :
    ∃ r, get_wireless_info env prior = some (1, r) ∧
      r.bssid = nla_data (nla_data m nbss) b ∧ r.frequency = 0 ∧ r.signal_level = 0 ∧
      r.quality = 0 ∧ r.noise_level = 0 ∧ c_str r.essid = [] := by
  have hn := scan_entry_accepted_nested m nbss bss b hacc
  have hokb : attr_ok (some bss_policy) (nla_data m nbss) NL80211_BSS_BSSID b := by
    obtain ⟨tb, st, status, _, _, hn1, _, _, _, hb, _⟩ := hacc
    exact nla_parse_ok _ _ _ _ hn1 _ _ hb
  have hmac : (nla_data (nla_data m nbss) b).take ETH_ALEN = nla_data (nla_data m nbss) b := by
    apply List.take_of_length_le
    rw [nla_data_length _ _ hokb.1]
    exact Nat.le_of_eq hb6
  have hess : ∀ i, scan_essid m nbss bss i = some i := by
    intro i
    rcases hies with hnone | ⟨a, els, ha, hd, hwf, hno⟩
    · simp only [scan_essid, hnone]
    · have hoka := nla_parse_ok _ _ _ _ hn _ _ ha
      have hial : nla_len a = (ies_bytes els).length := by
        rw [← hd, nla_data_length _ _ hoka.1]
        rfl
      have hl : (ies_bytes els).length < 4294967296 := by
        have l1 := nla_data_length_le (nla_data m nbss) a
        have l2 := nla_data_length_le m nbss
        rw [hd] at l1
        omega
      obtain ⟨q, hq⟩ := find_ssid_no_ssid els hwf hl hno
      rw [← hial, ← hd, nla_data_nested m nbss a hoka.1] at hq
      have hat := find_ssid_at_window m (nbss.off + a.off) a.len (nla_len a) q 0 hq
      simp only [scan_essid, ha, hat]
      rcases q with _ | off
      · rfl
      · simp
  have hcb : gwi_scan_cb m wireless_info_zero
      = some { wireless_info_zero with bssid := nla_data (nla_data m nbss) b } := by
    apply gwi_scan_cb_of_run
    rw [gwi_scan_cb_run_accepted m _ nbss bss b hacc, hmac]
    simp only [gwi_scan_fill, scan_frequency, hfreq, scan_signal_unspec, hunspec,
      scan_signal_mbm, hmbm, hess]
  have hscan : run_cb gwi_scan_cb env.scan_replies wireless_info_zero
      = some { wireless_info_zero with bssid := nla_data (nla_data m nbss) b } := by
    rw [hdump, run_cb_append, run_cb_skip_reasons ms1 _ hm1, Option.some_bind]
    simp only [run_cb, hcb]
    exact run_cb_skip_reasons ms2 _ hm2
  obtain ⟨r, h2, e2⟩ := run_cb_sta_frame
    (env.sta_replies
      ({ wireless_info_zero with bssid := nla_data (nla_data m nbss) b } : wireless_info_t).bssid)
    { wireless_info_zero with bssid := nla_data (nla_data m nbss) b }
  refine ⟨r, get_wireless_info_ok env prior hok _ _ hscan h2 ?_, ?_⟩
  · rw [e2]
  · have hz : c_str wireless_info_zero.essid = [] := by decide
    rw [e2]
    exact ⟨rfl, rfl, rfl, rfl, rfl, hz⟩

/-- C13: the lookup on the dump whose one reply is `overrun_essid_scan_reply`,
an accepted entry with a BSSID, without frequency and signal attributes, and
with the information elements `[0x01, 0x05, 0x00]`, which hold no SSID
element: it returns 1 with the BSSID of the entry and `frequency`,
`signal_level`, `quality` and `noise_level` 0, but with `essid` holding the
string "A", not the empty string.  (`find_ssid` leaves the information
elements, stops on a zero byte of the attribute that follows and returns a
pointer into it.)  On `bare_scan_reply`, which carries no information elements,
`essid` is empty. -/
theorem c13_overlong_element_fills_essid :
    (∃ nbss bss b a, scan_entry_accepted overrun_essid_scan_reply nbss bss b ∧
      nla_data (nla_data overrun_essid_scan_reply nbss) b = mac_aabb ∧
      bss NL80211_BSS_FREQUENCY = none ∧ bss NL80211_BSS_SIGNAL_UNSPEC = none ∧
      bss NL80211_BSS_SIGNAL_MBM = none ∧
      bss NL80211_BSS_INFORMATION_ELEMENTS = some a ∧
      nla_data (nla_data overrun_essid_scan_reply nbss) a = [1, 5, 0] ∧
      find_ssid_at overrun_essid_scan_reply (nbss.off + a.off) (nla_len a)
        = some (some (nbss.off + a.off + 9), 3)) ∧
    (get_wireless_info (env_of [overrun_essid_scan_reply] []) home_info).map
        (fun r => (r.1, r.2.bssid, r.2.frequency, r.2.signal_level, r.2.quality,
          r.2.noise_level))
      = some (1, mac_aabb, 0, 0, 0, 0) ∧
    (get_wireless_info (env_of [overrun_essid_scan_reply] []) home_info).map
        (fun r => c_str r.2.essid) = some [65] ∧
    (get_wireless_info (env_of [bare_scan_reply] []) home_info).map
        (fun r => (r.1, r.2.bssid, c_str r.2.essid)) = some (1, mac_aabb, []) := by
  refine ⟨⟨_, _, _, _, ⟨_, _, _, rfl, rfl, rfl, rfl, rfl, Or.inl rfl, rfl, by decide⟩,
    by decide, rfl, rfl, rfl, rfl, by decide, by decide⟩, ?_, ?_, ?_⟩
  · decide
  · decide
  · decide

/-- C12, as stated, fails: on the dump of two accepted entries
(`home_scan_reply`, then `second_scan_reply`) the returned record has the
BSSID, frequency, signal level, quality and SSID of the second entry, not of
the first. -/
theorem c12_later_entry_overwrites :
    scan_entry_status home_scan_reply = some NL80211_BSS_STATUS_ASSOCIATED ∧
    scan_entry_status second_scan_reply = some NL80211_BSS_STATUS_ASSOCIATED ∧
    (gwi_scan_cb home_scan_reply wireless_info_zero).map
        (fun r => (r.bssid, r.frequency, r.signal_level, r.quality, c_str r.essid))
      = some (mac_aabb, 2412000000, -55, 65, ssid_home) ∧
    (get_wireless_info (env_of [home_scan_reply, second_scan_reply] []) wireless_info_zero).map
        (fun r => (r.1, r.2.bssid, r.2.frequency, r.2.signal_level, r.2.quality,
          c_str r.2.essid))
      = some (1, mac_1122, 5180000000, -40, 80, ssid_test) ∧
    mac_1122 ≠ mac_aabb := by
  decide

/-- C12, amended: nothing stops the scan at the first accepted entry;
`gwi_scan_cb` runs on every reply of the dump in turn.  Let every library call
succeed, let no callback read outside its reply message, and let the dump be
the replies `ms1`, then a reply `m` with an accepted entry, then replies `ms2`
each of which carries a reason to skip (so `m` is the last accepted entry,
whatever `ms1` holds).  Then the replies `ms1` leave a record `i0`, the
callback on `m` turns it into a record `r1`, the lookup returns 1, and the
returned record is `r1` up to `bitrate`.  Its `bssid` is the BSSID of `m`.
Its `frequency` is `f * 1000000` when `m` carries the frequency `f`, and the
one of `i0` when `m` carries none.  Its `signal_level` and `quality` are
`v / 100` and `nl80211_xbm_to_percent(v, 100)` when `m` carries SIGNAL_MBM
`v`, both `u` when `m` carries SIGNAL_UNSPEC `u` and no SIGNAL_MBM, and those
of `i0` when `m` carries neither.  Its `essid` is the one of `i0` when `m`
carries no information elements or `find_ssid` reports length 0 on them, and
it holds the string made of the first min(n, 32) bytes at the pointer that
`find_ssid` returns, cut before their first NUL byte, when `find_ssid` reports
a length `n` other than 0. -/
theorem c12_every_reply_is_processed (env : nl_env) (prior : wireless_info_t)
    (ms1 ms2 : List (List Nat)) (m : List Nat) (nbss : nlattr) (bss : attr_table) (b : nlattr)
    (hok : env_ok env) (hdump : env.scan_replies = ms1 ++ m :: ms2)
    (hacc : scan_entry_accepted m nbss bss b)
    (hlater : ∀ x ∈ ms2, scan_skip_reason x)
    (hsafe : run_cb gwi_scan_cb env.scan_replies wireless_info_zero ≠ none) :
    ∃ i0 r1 r, run_cb gwi_scan_cb ms1 wireless_info_zero = some i0 ∧
      gwi_scan_cb m i0 = some r1 ∧
      get_wireless_info env prior = some (1, r) ∧
      r = { r1 with bitrate := r.bitrate } ∧
      r.bssid = (nla_data (nla_data m nbss) b).take ETH_ALEN ∧
      (∀ a f, bss NL80211_BSS_FREQUENCY = some a →
        nla_get_u32 (nla_data m nbss) a = some f → r.frequency = f * 1000000) ∧
      (bss NL80211_BSS_FREQUENCY = none → r.frequency = i0.frequency) ∧
      (∀ a v, bss NL80211_BSS_SIGNAL_MBM = some a →
        nla_get_u32 (nla_data m nbss) a = some v →
        r.signal_level = Int.tdiv (to_int32 v) 100 ∧
        r.quality = (nl80211_xbm_to_percent (to_int32 v) 100 : Nat)) ∧
      (∀ a u, bss NL80211_BSS_SIGNAL_MBM = none →
        bss NL80211_BSS_SIGNAL_UNSPEC = some a →
        nla_get_u8 (nla_data m nbss) a = some u →
        r.signal_level = (u : Int) ∧ r.quality = (u : Int)) ∧
      (bss NL80211_BSS_SIGNAL_MBM = none → bss NL80211_BSS_SIGNAL_UNSPEC = none →
        r.signal_level = i0.signal_level ∧ r.quality = i0.quality) ∧
      (bss NL80211_BSS_INFORMATION_ELEMENTS = none → r.essid = i0.essid) ∧
      (∀ a q, bss NL80211_BSS_INFORMATION_ELEMENTS = some a →
        find_ssid_at m (nbss.off + a.off) (nla_len a) = some (q, 0) →
        r.essid = i0.essid) ∧
      (∀ a off n, bss NL80211_BSS_INFORMATION_ELEMENTS = some a →
        find_ssid_at m (nbss.off + a.off) (nla_len a) = some (some off, n) → n ≠ 0 →
        c_str r.essid = (((m.drop off).take n).take (min n 32)).takeWhile (· ≠ 0) ∧
        (c_str r.essid).length ≤ 32) := by
  rw [hdump, run_cb_append] at hsafe
  rcases h0 : run_cb gwi_scan_cb ms1 wireless_info_zero with _ | i0
  · rw [h0] at hsafe
    exact absurd rfl hsafe
  rw [h0, Option.some_bind] at hsafe
  simp only [run_cb] at hsafe
  rcases hr : gwi_scan_cb m i0 with _ | r1
  · rw [hr] at hsafe
    exact absurd rfl hsafe
  have hscan : run_cb gwi_scan_cb env.scan_replies wireless_info_zero = some r1 := by
    rw [hdump, run_cb_append, h0, Option.some_bind]
    simp only [run_cb, hr]
    exact run_cb_skip_reasons ms2 r1 hlater
  obtain ⟨r, h2, e⟩ := run_cb_sta_frame (env.sta_replies r1.bssid) r1
  have hb : r.bssid = r1.bssid := by
    have := congrArg wireless_info_t.bssid e
    exact this
  have hfq : r.frequency = r1.frequency := by
    have := congrArg wireless_info_t.frequency e
    exact this
  have hsl : r.signal_level = r1.signal_level := by
    have := congrArg wireless_info_t.signal_level e
    exact this
  have hql : r.quality = r1.quality := by
    have := congrArg wireless_info_t.quality e
    exact this
  have hes : r.essid = r1.essid := by
    have := congrArg wireless_info_t.essid e
    exact this
  have hR : (gwi_scan_cb_run m i0).1 = r1 := by
    rw [gwi_scan_cb_run_of_some m i0 r1 hr]
  obtain ⟨f1, f2, f3, f4, f5, f6⟩ := gwi_scan_cb_run_accepted_fields m i0 nbss bss b hacc
  rw [hR] at f1 f2 f3 f4 f5 f6
  obtain ⟨g1, g2, g3⟩ := gwi_scan_cb_accepted_essid m i0 r1 nbss bss b hacc hr
  rw [← hb] at f1
  rw [← hfq] at f2 f3
  rw [← hsl, ← hql] at f4 f5 f6
  rw [← hes] at g1 g2 g3
  exact ⟨i0, r1, r, rfl, hr, get_wireless_info_ok env prior hok _ _ hscan h2 hb, e,
    f1, f2, f3, f4, f5, f6, g1, g2, g3⟩

set_option maxRecDepth 8000 in
/-- The dump of the two accepted entries followed by an entry with status 0:
the result carries the BSSID, the frequency, the signal level, the quality and
the SSID of the second entry. -/
theorem c12_every_reply_is_processed_witness :
    ∃ r, get_wireless_info
        (env_of [home_scan_reply, second_scan_reply,
          scan_reply mac_aabb 2412 test_ies 4294961796 0] []) wireless_info_zero
        = some (1, r) ∧
      r.bssid = mac_1122 ∧ r.frequency = 5180000000 ∧ r.signal_level = -40 ∧
      r.quality = 80 ∧ c_str r.essid = ssid_test :=
  have h := c12_every_reply_is_processed
    (env_of [home_scan_reply, second_scan_reply,
      scan_reply mac_aabb 2412 test_ies 4294961796 0] []) wireless_info_zero
    [home_scan_reply] [scan_reply mac_aabb 2412 test_ies 4294961796 0] second_scan_reply
    _ _ _ (env_ok_env_of _ _) rfl
    ⟨_, _, _, rfl, rfl, rfl, rfl, rfl, Or.inl rfl, rfl, by decide⟩
    (by
      intro x hx
      simp only [List.mem_singleton] at hx
      subst hx
      exact Or.inr (Or.inr (Or.inr (Or.inr (Or.inl
        ⟨_, _, _, _, _, rfl, rfl, rfl, rfl, rfl, by decide, by decide⟩)))))
    (by decide)
  match h with
  | ⟨_, _, r, _, _, hg, _, hb, hf, _, hm, _, _, _, _, he⟩ =>
    ⟨r, hg, hb.trans (by decide), hf _ 5180 rfl rfl,
      (hm _ 4294963296 rfl rfl).1.trans (by decide),
      (hm _ 4294963296 rfl rfl).2.trans (by decide),
      (he _ _ 4 rfl rfl (by decide)).1.trans (by decide)⟩

/-! ## Lemmas: the decode of a sequence of records -/

/-- The 16-bit value at the start of what follows a prefix. -/
theorem get_le16_append (pre : List Nat) (a0 a1 : Nat) (rest : List Nat) :
    get_le16 (pre ++ a0 :: a1 :: rest) pre.length = a0 + 256 * a1 := by
  unfold get_le16
  rw [List.getD_append_right _ _ _ _ (Nat.le_refl _),
    List.getD_append_right _ _ _ _ (Nat.le_succ _)]
  simp

/-- The 16-bit value two bytes after a prefix. -/
theorem get_le16_append_two (pre : List Nat) (a0 a1 a2 a3 : Nat) (rest : List Nat) :
    get_le16 (pre ++ a0 :: a1 :: a2 :: a3 :: rest) (pre.length + 2) = a2 + 256 * a3 := by
  unfold get_le16
  rw [List.getD_append_right _ _ _ _ (by omega), List.getD_append_right _ _ _ _ (by omega)]
  have e1 : pre.length + 2 - pre.length = 2 := by omega
  have e2 : pre.length + 2 + 1 - pre.length = 3 := by omega
  rw [e1, e2]
  rfl

/-- The two bytes of a 16-bit value give the value back. -/
theorem le16_value (v : Nat) (h : v < 65536) : v % 256 + 256 * (v / 256 % 256) = v := by
  omega

/-- The shape of the bytes of one record. -/
theorem attr_bytes_shape (t : Nat) (p : List Nat) :
    attr_bytes t p = (p.length + NLA_HDRLEN) % 256 :: (p.length + NLA_HDRLEN) / 256 % 256 ::
      t % 256 :: t / 256 % 256 ::
      (p ++ List.replicate (NLA_ALIGN p.length - p.length) 0) := by
  simp [attr_bytes, le16_bytes]

/-- A record takes its length, header included, rounded up to a multiple of
four. -/
theorem attr_bytes_length (t : Nat) (p : List Nat) :
    (attr_bytes t p).length = NLA_ALIGN (p.length + NLA_HDRLEN) := by
  rw [attr_bytes_shape]
  simp only [List.length_cons, List.length_append, List.length_replicate, NLA_ALIGN,
    NLA_HDRLEN]
  omega

/-- The bytes of two sequences of records in a row. -/
theorem attrs_bytes_append (l1 l2 : List (Nat × List Nat)) :
    attrs_bytes (l1 ++ l2) = attrs_bytes l1 ++ attrs_bytes l2 := by
  induction l1 with
  | nil => rfl
  | cons r rs ih =>
    show attr_bytes r.1 r.2 ++ attrs_bytes (rs ++ l2)
      = (attr_bytes r.1 r.2 ++ attrs_bytes rs) ++ attrs_bytes l2
    rw [ih, List.append_assoc]

/-- On a valid stream that follows a prefix, the walk of `nla_parse` returns
the table built record by record. -/
theorem nla_parse_loop_records (maxtype : Nat) (policy : Option nla_policy) :
    ∀ (recs : List (Nat × List Nat)) (pre : List Nat) (tb : attr_table) (fuel : Nat),
      attrs_valid maxtype policy recs → (attrs_bytes recs).length ≤ fuel →
      nla_parse_loop maxtype policy (pre ++ attrs_bytes recs) fuel pre.length tb
        = some (decode_ref maxtype recs pre.length tb) := by
  intro recs
  induction recs with
  | nil =>
    intro pre tb fuel _ _
    cases fuel with
    | zero => simp [nla_parse_loop, attrs_bytes, decode_ref]
    | succ f => simp [nla_parse_loop, attrs_bytes, decode_ref]
  | cons r rs ih =>
    intro pre tb fuel hv hf
    obtain ⟨t, p⟩ := r
    obtain ⟨ht, hl, hpol⟩ := hv (t, p) (List.mem_cons_self _ _)
    have hv1 : attrs_valid maxtype policy rs := fun x hx => hv x (List.mem_cons_of_mem _ hx)
    have hH : NLA_HDRLEN = 4 := rfl
    simp only [hH] at ht hl
    have hlenr : (attr_bytes t p).length = NLA_ALIGN (p.length + 4) := attr_bytes_length t p
    have halign : p.length + 4 ≤ NLA_ALIGN (p.length + 4) := by
      simp only [NLA_ALIGN]
      omega
    have hlen : (attrs_bytes ((t, p) :: rs)).length
        = NLA_ALIGN (p.length + 4) + (attrs_bytes rs).length := by
      simp only [attrs_bytes, List.length_append, hlenr]
    rw [hlen] at hf
    obtain ⟨f, rfl⟩ : ∃ f, fuel = f + 1 := ⟨fuel - 1, by omega⟩
    have hbuf : pre ++ attrs_bytes ((t, p) :: rs)
        = pre ++ (p.length + 4) % 256 :: (p.length + 4) / 256 % 256 ::
          t % 256 :: t / 256 % 256 ::
          ((p ++ List.replicate (NLA_ALIGN p.length - p.length) 0) ++ attrs_bytes rs) := by
      simp only [attrs_bytes, attr_bytes_shape, List.cons_append, hH]
    have hbuf2 : pre ++ attrs_bytes ((t, p) :: rs) = (pre ++ attr_bytes t p) ++ attrs_bytes rs := by
      simp only [attrs_bytes, List.append_assoc]
    have hblen : (pre ++ attrs_bytes ((t, p) :: rs)).length
        = pre.length + (NLA_ALIGN (p.length + 4) + (attrs_bytes rs).length) := by
      rw [List.length_append, hlen]
    have g1 : get_le16 (pre ++ attrs_bytes ((t, p) :: rs)) pre.length = p.length + 4 := by
      rw [hbuf, get_le16_append, le16_value _ hl]
    have g2 : get_le16 (pre ++ attrs_bytes ((t, p) :: rs)) (pre.length + 2) = t := by
      rw [hbuf, get_le16_append_two, le16_value _ ht]
    have hpos : pre.length + NLA_ALIGN (p.length + 4) = (pre ++ attr_bytes t p).length := by
      rw [List.length_append, hlenr]
    have hrec := ih (pre ++ attr_bytes t p)
    simp only [nla_parse_loop, g1, g2, hblen, hH]
    rw [if_neg (by omega), if_neg (by omega), if_neg (by omega)]
    simp only [Nat.add_sub_cancel, decode_ref, attr_code, hH]
    by_cases hmax : maxtype < t % 16384
    · rw [if_pos hmax, if_pos hmax, hpos, hbuf2]
      exact hrec tb f hv1 (by omega)
    · rw [if_neg hmax, if_neg hmax]
      have hmin : ∀ q, policy = some q → nla_attr_minlen (q (t % 16384)) ≤ p.length :=
        fun q hq => hpol q hq (by simp only [attr_code]; omega)
      have hstep := hrec (fun c => if c = t % 16384 then some ⟨pre.length + 4, p.length⟩
        else tb c) f hv1 (by omega)
      rw [← hpos, ← hbuf2] at hstep
      cases policy with
      | none =>
        simp only [if_true]
        exact hstep
      | some q =>
        simp only [decide_eq_true_eq]
        rw [if_pos (hmin q rfl)]
        exact hstep

/-- A code that no record carries keeps the entry it had. -/
theorem decode_ref_absent (maxtype : Nat) (c : Nat) :
    ∀ (recs : List (Nat × List Nat)) (pos : Nat) (tb : attr_table),
      (∀ x ∈ recs, attr_code x ≠ c) → decode_ref maxtype recs pos tb c = tb c := by
  intro recs
  induction recs with
  | nil => intro pos tb _; rfl
  | cons r rs ih =>
    intro pos tb h
    have hr := h r (List.mem_cons_self _ _)
    simp only [decode_ref]
    rw [ih _ _ (fun x hx => h x (List.mem_cons_of_mem _ hx))]
    by_cases h1 : maxtype < attr_code r
    · rw [if_pos h1]
    · rw [if_neg h1]
      show (if c = attr_code r then some ⟨pos + NLA_HDRLEN, r.2.length⟩ else tb c) = tb c
      rw [if_neg (fun h2 => hr h2.symm)]

/-- The entry of a code is the span of the last record that carries it. -/
theorem decode_ref_last (maxtype : Nat) (r : Nat × List Nat) (post : List (Nat × List Nat))
    (hmax : attr_code r ≤ maxtype) (hpost : ∀ x ∈ post, attr_code x ≠ attr_code r) :
    ∀ (pre : List (Nat × List Nat)) (pos : Nat) (tb : attr_table),
      decode_ref maxtype (pre ++ r :: post) pos tb (attr_code r)
        = some ⟨pos + (attrs_bytes pre).length + NLA_HDRLEN, r.2.length⟩ := by
  intro pre
  induction pre with
  | nil =>
    intro pos tb
    simp only [List.nil_append, decode_ref, attrs_bytes, List.length_nil, Nat.add_zero]
    rw [decode_ref_absent maxtype _ post _ _ hpost, if_neg (by omega), if_pos rfl]
  | cons x xs ih =>
    intro pos tb
    show decode_ref maxtype (xs ++ r :: post) (pos + NLA_ALIGN (x.2.length + NLA_HDRLEN))
        (if maxtype < attr_code x then tb
         else fun c => if c = attr_code x then some ⟨pos + NLA_HDRLEN, x.2.length⟩ else tb c)
        (attr_code r)
      = some ⟨pos + (attrs_bytes (x :: xs)).length + NLA_HDRLEN, r.2.length⟩
    rw [ih]
    simp only [attrs_bytes, List.length_append, attr_bytes_length, Option.some.injEq,
      nlattr.mk.injEq, and_true]
    omega
/-- A code above the bound keeps the entry it had. -/
theorem decode_ref_above (maxtype : Nat) (c : Nat) (hc : maxtype < c) :
    ∀ (recs : List (Nat × List Nat)) (pos : Nat) (tb : attr_table),
      decode_ref maxtype recs pos tb c = tb c := by
  intro recs
  induction recs with
  | nil => intro pos tb; rfl
  | cons r rs ih =>
    intro pos tb
    simp only [decode_ref]
    rw [ih]
    by_cases h1 : maxtype < attr_code r
    · rw [if_pos h1]
    · rw [if_neg h1]
      show (if c = attr_code r then some ⟨pos + NLA_HDRLEN, r.2.length⟩ else tb c) = tb c
      rw [if_neg (by omega)]

/-- The payload of a record read back from the bytes of the stream. -/
theorem nla_data_of_record (pre post : List (Nat × List Nat)) (r : Nat × List Nat) :
    nla_data (attrs_bytes (pre ++ r :: post))
      ⟨(attrs_bytes pre).length + NLA_HDRLEN, r.2.length⟩ = r.2 := by
  have hd : List.drop ((attrs_bytes pre).length + NLA_HDRLEN) (attrs_bytes (pre ++ r :: post))
      = r.2 ++ (List.replicate (NLA_ALIGN r.2.length - r.2.length) 0 ++ attrs_bytes post) := by
    rw [attrs_bytes_append, List.drop_append]
    simp only [attrs_bytes, attr_bytes_shape, NLA_HDRLEN, List.cons_append, List.drop_succ_cons,
      List.drop_zero, List.append_assoc]
  simp only [nla_data, hd]
  simp

/-- C15: on every valid attribute stream the decode (with any bound and
policy, so at the top level and in the three nested tables) returns a table;
every present code's span lies inside the input; the table holds one span per
code, which for a code within the bound is the span of the last record with
that code, its bytes being that record's payload; a code that no record
carries, or that is above the bound, has no entry. -/
theorem c15_decode_table (maxtype : Nat) (policy : Option nla_policy)
    (recs : List (Nat × List Nat)) (hv : attrs_valid maxtype policy recs) :
    ∃ tb, nla_parse maxtype (attrs_bytes recs) policy = some tb ∧
      (∀ c a, tb c = some a → a.off + a.len ≤ (attrs_bytes recs).length) ∧
      (∀ pre r post, recs = pre ++ r :: post → attr_code r ≤ maxtype →
        (∀ x ∈ post, attr_code x ≠ attr_code r) →
        tb (attr_code r) = some ⟨(attrs_bytes pre).length + NLA_HDRLEN, r.2.length⟩ ∧
        nla_data (attrs_bytes recs) ⟨(attrs_bytes pre).length + NLA_HDRLEN, r.2.length⟩
          = r.2) ∧
      (∀ c, (∀ x ∈ recs, attr_code x ≠ c) → tb c = none) ∧
      (∀ c, maxtype < c → tb c = none) := by
  have hp : nla_parse maxtype (attrs_bytes recs) policy
      = some (decode_ref maxtype recs 0 (fun _ => none)) := by
    have h := nla_parse_loop_records maxtype policy recs [] (fun _ => none)
      (attrs_bytes recs).length hv (Nat.le_refl _)
    simpa [nla_parse] using h
  refine ⟨_, hp, ?_, ?_, ?_, ?_⟩
  · intro c a hca
    exact (nla_parse_ok maxtype _ policy _ hp c a hca).1
  · intro pre r post hrecs hmax hpost
    subst hrecs
    refine ⟨?_, nla_data_of_record pre post r⟩
    rw [decode_ref_last maxtype r post hmax hpost pre 0 (fun _ => none)]
    simp
  · intro c hc
    exact decode_ref_absent maxtype c recs 0 _ hc
  · intro c hc
    exact decode_ref_above maxtype c hc recs 0 _

/-- A BSS stream with the frequency twice: the entry of the frequency is the
second record, and the code 30, above the bound, has no entry. -/
theorem c15_decode_table_witness :
    ∃ tb, nla_parse NL80211_BSS_MAX
        (attrs_bytes [(NL80211_BSS_FREQUENCY, le32_bytes 2412),
          (NL80211_BSS_STATUS, le32_bytes 1), (30, [7]),
          (NL80211_BSS_FREQUENCY, le32_bytes 5180)]) (some bss_policy) = some tb ∧
      tb NL80211_BSS_FREQUENCY = some ⟨28, 4⟩ ∧
      nla_data (attrs_bytes [(NL80211_BSS_FREQUENCY, le32_bytes 2412),
          (NL80211_BSS_STATUS, le32_bytes 1), (30, [7]),
          (NL80211_BSS_FREQUENCY, le32_bytes 5180)]) ⟨28, 4⟩ = le32_bytes 5180 ∧
      tb 30 = none :=
  match c15_decode_table NL80211_BSS_MAX (some bss_policy)
      [(NL80211_BSS_FREQUENCY, le32_bytes 2412), (NL80211_BSS_STATUS, le32_bytes 1), (30, [7]),
        (NL80211_BSS_FREQUENCY, le32_bytes 5180)] (by decide) with
  | ⟨tb, h1, _, h3, _, h5⟩ =>
    ⟨tb, h1,
      (h3 [(NL80211_BSS_FREQUENCY, le32_bytes 2412), (NL80211_BSS_STATUS, le32_bytes 1),
        (30, [7])] (NL80211_BSS_FREQUENCY, le32_bytes 5180) [] rfl (by decide)
        (by intro x hx; cases hx)).1,
      (h3 [(NL80211_BSS_FREQUENCY, le32_bytes 2412), (NL80211_BSS_STATUS, le32_bytes 1),
        (30, [7])] (NL80211_BSS_FREQUENCY, le32_bytes 5180) [] rfl (by decide)
        (by intro x hx; cases hx)).2,
      h5 30 (by decide)⟩

end PrintWifiNl
